import Mathlib

/-!
# Autonity oracle: price pool and aggregation tick

A shallow embedding of `price_pool/price_pool.go`, `server.go` and the parser
of `data_source_simulator/binance_simulator/config/config.go`.

* Go maps are total lookup functions into `Option`; indexing a missing key
  yields the zero value of the element type.
* A `*PriceProvider` is an address (`Nat`) into the store of allocated
  providers, `none` being the nil pointer.
* `int64` values are integers; the one arithmetic operation of the tick, the
  subtraction `now - p.Timestamp`, wraps modulo `2^64` as it does in Go.
* A run-time panic is an `Except.error`.
* Locks are not modelled: every operation here is one critical section.
* Go strings are strings of Unicode characters; `strings.Split` is taken for
  separators of one character, the only ones the code uses.
-/

namespace Oracle

/-! ## Types (package `types`) -/

/-- Modelled from the spec: `decimal.Decimal`, the arbitrary-precision decimal
of the price field, taken as an exact rational number. -/
abbrev Decimal := ℚ

set_option linter.dupNamespace false in
/-- Modelled from the spec: `types.Price`, whose declaration is not part of the
sources at hand; the three fields are the ones `server.go` reads and writes
(`Timestamp` in milliseconds since the epoch, an `int64`). -/
structure Price where
  Timestamp : Int
  Price : Decimal
  Symbol : String
deriving DecidableEq

/-- The zero value of `types.Price`: empty symbol, zero price, timestamp 0. -/
def Price.zero : Oracle.Price := { Timestamp := 0, Price := 0, Symbol := "" }

/-- The Go map type `types.PriceBySymbol`, `map[string]Price`. -/
abbrev PriceBySymbol := String → Option Price

/-- The map of `make(types.PriceBySymbol)`. -/
def PriceBySymbol.empty : PriceBySymbol := fun _ => none

/-- Go's `m[k]`: the stored value, or the zero value when the key is absent. -/
def PriceBySymbol.index (m : PriceBySymbol) (k : String) : Price :=
  (m k).getD Price.zero

/-- Go's `m[k] = v`. -/
def PriceBySymbol.insert (m : PriceBySymbol) (k : String) (v : Price) : PriceBySymbol :=
  fun x => if x = k then some v else m x

/-- A run-time panic of the Go program. -/
inductive Panic where
  | nilDereference
  | indexOutOfRange
deriving DecidableEq, Repr

/-- Modelled from the spec: `types.Aggregator`, the interface with the single
method `Aggregate(prices []decimal.Decimal) decimal.Decimal`; an implementation
may panic. -/
abbrev Aggregator := List Decimal → Except Panic Decimal

/-- What one call of an adapter's `FetchPrices` does: the observations it hands
to `AddPrices` of its bound provider, and whether it returns an error. -/
structure FetchResult where
  written : List Price
  err : Bool

/-- Modelled from the spec: `types.Adapter`, the interface `Name`, `Initialize`,
`FetchPrices` (spec 4.3). `pool` is the provider bound by `Initialize`. -/
structure Adapter where
  Name : String
  pool : Nat
  FetchPrices : List String → FetchResult

/-! ## `price_pool/price_pool.go` -/

structure PriceProvider where
  name : String
  priceBySymbol : PriceBySymbol

def NewPriceProvider (providerName : String) : PriceProvider :=
  { name := providerName, priceBySymbol := PriceBySymbol.empty }

def PriceProvider.AddPrices (t : PriceProvider) (prices : List Price) : PriceProvider :=
  prices.foldl (fun t p => { t with priceBySymbol := t.priceBySymbol.insert p.Symbol p }) t

def PriceProvider.GetPrice (t : PriceProvider) (symbol : String) : Price :=
  t.priceBySymbol.index symbol

/-- The contents, at the time of the call, of the map that `GetPrices` returns.
The Go value returned is a reference to the provider's own map: see
`PriceProviderPool.getPricesAt`. -/
def PriceProvider.GetPrices (t : PriceProvider) : PriceBySymbol :=
  t.priceBySymbol

/-- The registry `PriceProviderPool`. `providerPool` is the Go map
`map[string]*PriceProvider`; `objs` holds the providers allocated so far, by
address, and `next` is the first unused address. -/
structure PriceProviderPool where
  objs : Nat → PriceProvider
  next : Nat
  providerPool : String → Option Nat

def NewPriceProviderPool : PriceProviderPool :=
  { objs := fun _ => NewPriceProvider "", next := 0, providerPool := fun _ => none }

/-- Returns the pool and the address of the new provider. -/
def PriceProviderPool.AddPriceProvider (tp : PriceProviderPool) (provider : String) :
    PriceProviderPool × Nat :=
  ({ objs := fun a => if a = tp.next then NewPriceProvider provider else tp.objs a,
     next := tp.next + 1,
     providerPool := fun k => if k = provider then some tp.next else tp.providerPool k },
   tp.next)

/-- The pointer stored under the name, nil (`none`) when there is none. -/
def PriceProviderPool.GetPriceProvider (tp : PriceProviderPool) (provider : String) : Option Nat :=
  tp.providerPool provider

def PriceProviderPool.DeletePriceProvider (tp : PriceProviderPool) (provider : String) :
    PriceProviderPool :=
  { tp with providerPool := fun k => if k = provider then none else tp.providerPool k }

/-- The method call `ptr.AddPrices(prices)` through a non-nil pointer. -/
def PriceProviderPool.addPricesAt (tp : PriceProviderPool) (ptr : Nat) (prices : List Price) :
    PriceProviderPool :=
  { tp with objs := fun a => if a = ptr then (tp.objs a).AddPrices prices else tp.objs a }

/-- The method call `ptr.GetPrice(symbol)`: a nil receiver panics at
`t.lock.RLock()`. -/
def PriceProviderPool.getPriceAt (tp : PriceProviderPool) (ptr : Option Nat) (symbol : String) :
    Except Panic Price :=
  match ptr with
  | none => .error Panic.nilDereference
  | some a => .ok ((tp.objs a).GetPrice symbol)

/-! ## `server.go` -/

/-- The freshness window `PERIOD`, in milliseconds. -/
def PERIOD : Int := 3 * 60 * 1000

/-- Two's-complement wrap of an integer into the `int64` range. -/
def wrapInt64 (x : Int) : Int := (x + 2 ^ 63) % 2 ^ 64 - 2 ^ 63

/-- Go's `a - b` on `int64`. -/
def subInt64 (a b : Int) : Int := wrapInt64 (a - b)

/-- Membership in the `int64` range. -/
def isInt64 (x : Int) : Prop := -2 ^ 63 ≤ x ∧ x < 2 ^ 63

instance (x : Int) : Decidable (isInt64 x) := by unfold isInt64; infer_instance

/-- Modelled from the spec: `types.OracleServiceConfig`, of which `server.go`
reads the fields `Symbols` and `Providers`. -/
structure OracleServiceConfig where
  Symbols : List String
  Providers : List String

structure OracleService where
  version : String
  config : OracleServiceConfig
  prices : PriceBySymbol
  symbols : List String
  aggregator : Aggregator
  priceProviderPool : PriceProviderPool
  adapters : List Adapter

/-- What a tick is observed to do besides changing the state: its calls of
`FetchPrices` and of `Aggregate`, in order. -/
inductive Event where
  | fetch (adapter : String) (symbols : List String)
  | aggregate (symbol : String) (values : List Decimal)
deriving DecidableEq

def OracleService.Version (os : OracleService) : String := os.version

def OracleService.UpdateSymbols (os : OracleService) (symbols : List String) : OracleService :=
  { os with symbols := symbols }

def OracleService.Symbols (os : OracleService) : List String := os.symbols

def OracleService.GetPrice (os : OracleService) (symbol : String) : Price :=
  os.prices.index symbol

def OracleService.GetPrices (os : OracleService) : PriceBySymbol := os.prices

def OracleService.UpdatePrice (os : OracleService) (symbol : String) (price : Price) :
    OracleService :=
  { os with prices := os.prices.insert symbol price }

/-- The test of line 100: `now-p.Timestamp < int64(PERIOD) && now >= p.Timestamp`. -/
def fresh (now : Int) (p : Price) : Bool :=
  decide (subInt64 now p.Timestamp < PERIOD) && decide (now ≥ p.Timestamp)

/-- Lines 89-91: every adapter is asked to fetch, its error is dropped. -/
def fetchAll (symbols : List String) :
    List Adapter → PriceProviderPool → List Event → PriceProviderPool × List Event
  | [], tp, log => (tp, log)
  | ad :: rest, tp, log =>
      fetchAll symbols rest (tp.addPricesAt ad.pool (ad.FetchPrices symbols).written)
        (log ++ [Event.fetch ad.Name symbols])

/-- Lines 96-103: the prices of symbol `s` that pass the freshness test, one
adapter after the other, appended to `prices`. -/
def collectPrices (tp : PriceProviderPool) (now : Int) (s : String) :
    List Adapter → List Decimal → Except Panic (List Decimal)
  | [], prices => .ok prices
  | ad :: rest, prices =>
      match tp.getPriceAt (tp.GetPriceProvider ad.Name) s with
      | .error e => .error e
      | .ok p => collectPrices tp now s rest (if fresh now p then prices ++ [p.Price] else prices)

/-- Lines 96-120: the body of the loop over the symbols. -/
def updateSymbol (now : Int) (os : OracleService) (log : List Event) (s : String) :
    Except Panic (OracleService × List Event) :=
  match collectPrices os.priceProviderPool now s os.adapters [] with
  | .error e => .error e
  | .ok [] => .ok (os, log)
  | .ok (p0 :: ps) =>
      let price : Price := { Timestamp := now, Price := p0, Symbol := s }
      if (p0 :: ps).length > 1 then
        match os.aggregator (p0 :: ps) with
        | .error e => .error e
        | .ok p => .ok (os.UpdatePrice s { price with Price := p },
                        log ++ [Event.aggregate s (p0 :: ps)])
      else .ok (os.UpdatePrice s price, log)

/-- Lines 95-121: the loop over the symbols. -/
def updateSymbols (now : Int) :
    List String → OracleService → List Event → Except Panic (OracleService × List Event)
  | [], os, log => .ok (os, log)
  | s :: rest, os, log =>
      match updateSymbol now os log s with
      | .error e => .error e
      | .ok (os1, log1) => updateSymbols now rest os1 log1

/-- One tick. `now` is the value of `time.Now().UnixMilli()` at line 93. -/
def OracleService.UpdatePrices (os : OracleService) (now : Int) :
    Except Panic (OracleService × List Event) :=
  let fetched := fetchAll os.symbols os.adapters os.priceProviderPool []
  updateSymbols now os.symbols { os with priceProviderPool := fetched.1 } fetched.2

/-! ## The default aggregator -/

/-- Modelled from the spec: `aggregator.NewAveragePriceAggregator`, which is not
part of the sources at hand. Spec 4.2: the arithmetic mean with no outlier
rejection, failing fast on an empty sequence. -/
def NewAveragePriceAggregator : Aggregator
  | [] => .error Panic.indexOutOfRange
  | p :: ps => .ok ((p :: ps).sum / ((p :: ps).length : ℚ))

/-! ## Auxiliary notions used to state the properties of a tick -/

/-- The observation for `s` held by the provider registered under each
adapter's name, in adapter order (adapters without a registered provider are
left out). -/
def observations (tp : PriceProviderPool) (s : String) (ads : List Adapter) : List Price :=
  ads.filterMap fun ad => (tp.GetPriceProvider ad.Name).map fun a => (tp.objs a).GetPrice s

/-- The values of the observations for `s` that pass the freshness test of the
tick, in adapter order. -/
def freshValues (tp : PriceProviderPool) (now : Int) (s : String) (ads : List Adapter) :
    List Decimal :=
  ((observations tp s ads).filter (fresh now)).map (·.Price)

/-- Every adapter's name has a provider in the registry. -/
def allRegistered (tp : PriceProviderPool) (ads : List Adapter) : Bool :=
  ads.all fun ad => (tp.GetPriceProvider ad.Name).isSome

/-- The aggregator returns a value on every sequence of at least two prices. -/
def Aggregator.Total (agg : Aggregator) : Prop :=
  ∀ vs : List Decimal, 2 ≤ vs.length → ∃ v, agg vs = .ok v

/-- The registry after the fetch phase of a tick. -/
def OracleService.fetched (os : OracleService) : PriceProviderPool :=
  (fetchAll os.symbols os.adapters os.priceProviderPool []).1

/-- The table entry of symbol `k` after it has been processed with fresh values
`vs`, `old` being the entry before. -/
def entryFor (agg : Aggregator) (now : Int) (k : String) (vs : List Decimal)
    (old : Option Price) : Option Price :=
  match vs with
  | [] => old
  | [v] => some { Timestamp := now, Price := v, Symbol := k }
  | v :: w :: rest =>
      match agg (v :: w :: rest) with
      | .ok a => some { Timestamp := now, Price := a, Symbol := k }
      | .error _ => old

/-- The `Aggregate` calls of the loop over `syms`. -/
def aggregateEvents (tp : PriceProviderPool) (now : Int) (ads : List Adapter)
    (syms : List String) : List Event :=
  syms.filterMap fun k =>
    if 2 ≤ (freshValues tp now k ads).length then
      some (Event.aggregate k (freshValues tp now k ads))
    else none

/-! ## Construction of the service -/

/-- Lines 45-52: the body of the loop over `config.Providers`.
`NewBinanceAdapter` stands for the adapter made by
`crypto_provider.NewBinanceAdapter()`, which is not part of the sources at
hand; `Initialize` binds it to the provider just added. -/
def addConfiguredProvider (NewBinanceAdapter : Adapter) (os : OracleService)
    (provider : String) : OracleService :=
  if provider = "Binance" then
    let r := os.priceProviderPool.AddPriceProvider provider
    { os with
      priceProviderPool := r.1
      adapters := os.adapters ++ [{ NewBinanceAdapter with pool := r.2 }] }
  else os

/-- The constructor of `server.go`. -/
def NewOracleService (config : OracleServiceConfig) (NewBinanceAdapter : Adapter) :
    OracleService :=
  config.Providers.foldl (addConfiguredProvider NewBinanceAdapter)
    { version := "v0.0.1"
      config := config
      symbols := config.Symbols
      prices := PriceBySymbol.empty
      aggregator := NewAveragePriceAggregator
      priceProviderPool := NewPriceProviderPool
      adapters := [] }

/-! ## Concrete states -/

/-- An adapter bound to provider 0 whose fetch writes nothing and succeeds. -/
def idleAdapter : Adapter :=
  { Name := "A", pool := 0, FetchPrices := fun _ => { written := [], err := false } }

/-- An adapter bound to provider 1 whose fetch writes nothing and succeeds. -/
def idleAdapterB : Adapter :=
  { Name := "B", pool := 1, FetchPrices := fun _ => { written := [], err := false } }

/-- An adapter bound to provider 0 whose fetch fails and writes nothing. -/
def failingAdapter : Adapter :=
  { Name := "A", pool := 0, FetchPrices := fun _ => { written := [], err := true } }

/-- An adapter bound to provider 1 whose fetch writes, for every symbol asked,
the price 3 observed at 1699999999000. -/
def workingAdapter : Adapter :=
  { Name := "B", pool := 1,
    FetchPrices := fun syms =>
      { written := syms.map fun s => { Timestamp := 1699999999000, Price := 3, Symbol := s },
        err := false } }

/-- A registry with the empty providers "A" (address 0) and "B" (address 1). -/
def twoProviders : PriceProviderPool :=
  ((NewPriceProviderPool.AddPriceProvider "A").1.AddPriceProvider "B").1

/-- As `twoProviders`, provider "A" holding the price 1 for "Y", ten seconds
before 1700000000000. -/
def heldByA : PriceProviderPool :=
  twoProviders.addPricesAt 0 [{ Timestamp := 1699999990000, Price := 1, Symbol := "Y" }]

/-- As `twoProviders`, provider "A" holding for "X" an observation with the
least `int64` timestamp. -/
def staleHeld : PriceProviderPool :=
  twoProviders.addPricesAt 0 [{ Timestamp := -9223372036854775808, Price := 5, Symbol := "X" }]

/-- As `twoProviders`, the providers holding 1.00 and 1.02 for "X". -/
def centsHeld : PriceProviderPool :=
  (twoProviders.addPricesAt 0 [{ Timestamp := 1699999990000, Price := 1.00, Symbol := "X" }]).addPricesAt
    1 [{ Timestamp := 1699999995000, Price := 1.02, Symbol := "X" }]

/-- A service with the default aggregator and an empty price table. -/
def demoService (tp : PriceProviderPool) (ads : List Adapter) (symbols : List String) :
    OracleService :=
  { version := "v0.0.1"
    config := { Symbols := symbols, Providers := [] }
    symbols := symbols
    prices := PriceBySymbol.empty
    aggregator := NewAveragePriceAggregator
    priceProviderPool := tp
    adapters := ads }

/-- The service `demoService twoProviders [idleAdapter, workingAdapter] ["Y"]`
after its tick at 1700000000000: provider "B" holds the price 3 for "Y", which
is published. -/
def publishedOnce : OracleService :=
  { demoService twoProviders [idleAdapter, workingAdapter] ["Y"] with
    priceProviderPool := (demoService twoProviders [idleAdapter, workingAdapter] ["Y"]).fetched
    prices := PriceBySymbol.empty.insert "Y"
      { Timestamp := 1700000000000, Price := 3, Symbol := "Y" } }

/-! ## Map references, registry histories, runs of ticks -/

/-- A Go map value is a reference to the map, not a copy of it. The map of a
provider is made once, in `NewPriceProvider`, and never replaced, so the
reference is identified with the address of the provider that owns the map. -/
structure MapRef where
  owner : Nat
deriving DecidableEq

/-- The method call `ptr.GetPrices()` through a non-nil pointer: line 38
returns `t.priceBySymbol`, the provider's own map. -/
def PriceProviderPool.getPricesAt (_tp : PriceProviderPool) (ptr : Nat) : MapRef :=
  { owner := ptr }

/-- Go's `m[k]` on a map reference, evaluated in the store `tp`. -/
def PriceProviderPool.readMap (tp : PriceProviderPool) (m : MapRef) (k : String) : Price :=
  (tp.objs m.owner).priceBySymbol.index k

/-- A call on the registry or through one of its providers. -/
inductive PoolOp where
  | add (provider : String)
  | delete (provider : String)
  | write (ptr : Nat) (prices : List Price)

/-- The registry after one call. -/
def PoolOp.apply (tp : PriceProviderPool) : PoolOp → PriceProviderPool
  | .add provider => (tp.AddPriceProvider provider).1
  | .delete provider => tp.DeletePriceProvider provider
  | .write ptr prices => tp.addPricesAt ptr prices

/-- The registry made by `NewPriceProviderPool` after a sequence of calls. -/
def runPoolOps (ops : List PoolOp) : PriceProviderPool :=
  ops.foldl PoolOp.apply NewPriceProviderPool

/-- The state `post` is reached from `os` by zero or more ticks. Between two
ticks everything but the tracked symbols and the price table may have changed:
adapters come and go and answer differently, providers are written. -/
inductive AfterTicks : OracleService → OracleService → Prop where
  | refl (os : OracleService) : AfterTicks os os
  | tick (os mid pre post : OracleService) (now : Int) (log : List Event) :
      AfterTicks os mid → pre.symbols = mid.symbols → pre.prices = mid.prices →
      pre.UpdatePrices now = .ok (post, log) → AfterTicks os post

/-! ## `data_source_simulator/binance_simulator/config/config.go` -/

/-- The characters for which Go's `unicode.IsSpace` holds. -/
def isSpace (c : Char) : Bool :=
  (9 ≤ c.toNat && c.toNat ≤ 13) || c.toNat = 32 || c.toNat = 133 || c.toNat = 160 ||
  c.toNat = 5760 || (8192 ≤ c.toNat && c.toNat ≤ 8202) || c.toNat = 8232 || c.toNat = 8233 ||
  c.toNat = 8239 || c.toNat = 8287 || c.toNat = 12288

/-- Go's `strings.TrimSpace` on the characters of a string. -/
def trimSpaceChars (cs : List Char) : List Char :=
  ((cs.dropWhile isSpace).reverse.dropWhile isSpace).reverse

/-- Go's `strings.Split` on the characters of a string, for a separator of one
character: the pieces between the separators, one piece for the empty string. -/
def splitChars (sep : Char) : List Char → List (List Char)
  | [] => [[]]
  | c :: cs =>
      if c = sep then [] :: splitChars sep cs
      else
        match splitChars sep cs with
        | [] => [[c]]
        | f :: fs => (c :: f) :: fs

/-- Go's `strings.TrimSpace`. -/
def TrimSpace (s : String) : String := String.mk (trimSpaceChars s.data)

/-- Go's `strings.Split(s, sep)` for a separator of one character. -/
def Split (s : String) (sep : Char) : List String :=
  (splitChars sep s.data).map String.mk

structure GeneratorConfig where
  ReferenceDataPoint : Decimal
  DistributionRate : Decimal
deriving DecidableEq

/-- The Go map `map[string]*GeneratorConfig`. -/
abbrev SimulatorConf := String → Option GeneratorConfig

/-- The panic of `decimal.RequireFromString` on a string that is no decimal. -/
inductive ConfPanic where
  | cannotConvert (value : String)
deriving DecidableEq

/-- The function `decimal.NewFromString` of the decimal library, which is not
part of the repository: the decimal denoted by a string, `none` when the
library returns an error. The parser is a parameter of the embedding. -/
abbrev DecimalParser := String → Option Decimal

/-- The library function `decimal.RequireFromString`: as `NewFromString`, with
a panic in place of the error. -/
def RequireFromString (parse : DecimalParser) (value : String) : Except ConfPanic Decimal :=
  match parse value with
  | some d => .ok d
  | none => .error (ConfPanic.cannotConvert value)

def DefSimulatorConf : String :=
  "NTNUSD:1.0:0.01|NTNAUD:1.408:0.01|NTNCAD:1.3333:0.01|NTNEUR:0.9767:0.01|NTNGBP:0.813:0.01|NTNJPY:128.205:0.01|NTNSEK:10.309:0.01"

/-- The `float64` 7.0, as the decimal that `decimal.NewFromFloat` makes of it. -/
def DefDataPointMagnificationFactor : Decimal := 7

/-- The `float64` 2.0, as the decimal that `decimal.NewFromFloat` makes of it. -/
def DefDataDistributionRangeMagnificationFactor : Decimal := 2

/-- Lines 63-78: the body of the loop over the items. -/
def parseItem (parse : DecimalParser) (dataPointFactor distributionRateFactor : Decimal)
    (result : SimulatorConf) (it : String) : Except ConfPanic SimulatorConf :=
  let i := TrimSpace it
  if i.length = 0 then .ok result
  else
    match Split i ':' with
    | [symbol, startPoint, rateRange] =>
        match RequireFromString parse startPoint with
        | .error e => .error e
        | .ok start =>
            match RequireFromString parse rateRange with
            | .error e => .error e
            | .ok rate =>
                .ok fun k =>
                  if k = symbol then
                    some { ReferenceDataPoint := start * dataPointFactor,
                           DistributionRate := rate * distributionRateFactor }
                  else result k
    | _ => .ok result

/-- Lines 62-79: the loop over the items. -/
def parseItems (parse : DecimalParser) (dataPointFactor distributionRateFactor : Decimal) :
    List String → SimulatorConf → Except ConfPanic SimulatorConf
  | [], result => .ok result
  | it :: rest, result =>
      match parseItem parse dataPointFactor distributionRateFactor result it with
      | .error e => .error e
      | .ok result1 => parseItems parse dataPointFactor distributionRateFactor rest result1

/-- The function of `config.go`; the three `println` calls are left out. -/
def ParseSimulatorConf (parse : DecimalParser) (conf : String)
    (dataPointFactor distributionRateFactor : Decimal) : Except ConfPanic SimulatorConf :=
  parseItems parse dataPointFactor distributionRateFactor (Split conf '|') fun _ => none

/-! ### A model of the decimal parser -/

/-- The number written by a string of decimal digits, after the digits `acc`. -/
def digitsValue : List Char → Nat → Option Nat
  | [], acc => some acc
  | c :: cs, acc =>
      if 48 ≤ c.toNat ∧ c.toNat ≤ 57 then digitsValue cs (acc * 10 + (c.toNat - 48)) else none

/-- An optional sign followed by one or more decimal digits, as `strconv.ParseInt`
and `big.Int.SetString` read them in base 10. -/
def signedValue (cs : List Char) : Option Int :=
  match cs with
  | [] => none
  | c :: ds =>
      if c = '-' then
        if ds = [] then none else (digitsValue ds 0).map fun n => -(n : Int)
      else if c = '+' then
        if ds = [] then none else (digitsValue ds 0).map fun n => (n : Int)
      else (digitsValue (c :: ds) 0).map fun n => (n : Int)

/-- The unscaled value and the exponent that `decimal.NewFromString` reads from
a string: an optional exponent after the first `e` or `E`, at most one point,
the digits around the point read as one integer, the exponent lowered by the
number of digits after the point. Exponents are kept within `int32`. -/
def decimalParts (cs : List Char) : Option (Int × Int) :=
  let mantissa := cs.takeWhile fun c => !(c = 'e' || c = 'E')
  let tail := cs.dropWhile fun c => !(c = 'e' || c = 'E')
  let exponent : Option Int :=
    match tail with
    | [] => some 0
    | _ :: digits => (signedValue digits).bind fun e =>
        if -2 ^ 31 ≤ e ∧ e < 2 ^ 31 then some e else none
  if 1 < mantissa.count '.' then none
  else
    let whole := mantissa.takeWhile fun c => !(c = '.')
    let fraction := (mantissa.dropWhile fun c => !(c = '.')).drop 1
    match exponent, signedValue (whole ++ fraction) with
    | some e, some n =>
        if -2 ^ 31 ≤ e - fraction.length ∧ e - fraction.length < 2 ^ 31 then
          some (n, e - fraction.length)
        else none
    | _, _ => none

/-- A model of `decimal.NewFromString`: the decimal `value * 10 ^ exp`. -/
def decimalFromString : DecimalParser := fun s =>
  (decimalParts s.data).map fun ne => (ne.1 : ℚ) * (10 : ℚ) ^ ne.2

/-! ### Auxiliary notions used to state the properties of the parser -/

/-- The three fields of an item that is not empty after trimming and has
exactly three fields, `none` for every other item. -/
def threeFields (it : String) : Option (String × String × String) :=
  if (TrimSpace it).length = 0 then none
  else
    match Split (TrimSpace it) ':' with
    | [symbol, startPoint, rateRange] => some (symbol, startPoint, rateRange)
    | _ => none

/-- The three-field items of a list of items, in order. -/
def entriesOf (items : List String) : List (String × String × String) :=
  items.filterMap threeFields

/-- The generator configuration written for a three-field item. -/
def configOf (parse : DecimalParser) (dataPointFactor distributionRateFactor : Decimal)
    (e : String × String × String) : GeneratorConfig :=
  { ReferenceDataPoint := (parse e.2.1).getD 0 * dataPointFactor,
    DistributionRate := (parse e.2.2).getD 0 * distributionRateFactor }

/-- Both numbers of every three-field item are decimals for the parser. -/
def allDecimal (parse : DecimalParser) (entries : List (String × String × String)) : Bool :=
  entries.all fun e => (parse e.2.1).isSome && (parse e.2.2).isSome

/-! ## Machine integers -/

theorem wrapInt64_eq_self {x : Int} (h : isInt64 x) : wrapInt64 x = x := by
  obtain ⟨h1, h2⟩ := h
  unfold wrapInt64
  rw [Int.emod_eq_of_lt (by linarith) (by linarith)]
  ring

/-- Without overflow in `now - p.Timestamp`, the test of the tick is the
comparison of the age with the window. -/
theorem fresh_iff_of_noOverflow (now : Int) (p : Price) (h : isInt64 (now - p.Timestamp)) :
    fresh now p = true ↔ now - p.Timestamp < 180000 ∧ p.Timestamp ≤ now := by
  simp [fresh, subInt64, wrapInt64_eq_self h, PERIOD]

/-- The two boundary observations of the window: one millisecond older than the
window fails the test, one millisecond younger passes it. -/
theorem fresh_boundary (now : Int) (v : Decimal) (sym : String) :
    fresh now { Timestamp := now - 180000 - 1, Price := v, Symbol := sym } = false ∧
    fresh now { Timestamp := now - 180000 + 1, Price := v, Symbol := sym } = true := by
  have h1 : now - (now - 180000 - 1) = 180001 := by ring
  have h2 : now - (now - 180000 + 1) = 179999 := by ring
  constructor
  · simp only [fresh, subInt64, h1, PERIOD]
    rw [wrapInt64_eq_self (by decide)]
    simp
  · simp only [fresh, subInt64, h2, PERIOD]
    rw [wrapInt64_eq_self (by decide)]
    simp only [ge_iff_le, Bool.and_eq_true, decide_eq_true_eq]
    constructor
    · decide
    · linarith

/-! ## The price provider -/

theorem AddPrices_nil (t : PriceProvider) : t.AddPrices [] = t := rfl

theorem AddPrices_cons (t : PriceProvider) (p : Price) (ps : List Price) :
    t.AddPrices (p :: ps)
      = PriceProvider.AddPrices { t with priceBySymbol := t.priceBySymbol.insert p.Symbol p } ps :=
  rfl

theorem AddPrices_append (t : PriceProvider) (ps qs : List Price) :
    t.AddPrices (ps ++ qs) = (t.AddPrices ps).AddPrices qs := by
  simp [PriceProvider.AddPrices, List.foldl_append]

/-- A sequence of `AddPrices` calls is one call with the concatenated slices. -/
theorem foldl_AddPrices (calls : List (List Price)) (t : PriceProvider) :
    calls.foldl PriceProvider.AddPrices t = t.AddPrices calls.flatten := by
  induction calls generalizing t with
  | nil => rfl
  | cons c cs ih => simp [ih, AddPrices_append]

/-- What `AddPrices` leaves under a symbol: the last observation of the slice
with that symbol, or the previous entry when there is none. -/
theorem AddPrices_lookup (ps : List Price) (t : PriceProvider) (s : String) :
    (t.AddPrices ps).priceBySymbol s
      = ((ps.filter fun p => p.Symbol = s).getLast?).orElse fun _ => t.priceBySymbol s := by
  induction ps using List.reverseRecOn with
  | nil => simp [AddPrices_nil]
  | append_singleton ps p ih =>
      rw [AddPrices_append]
      have h1 : ((t.AddPrices ps).AddPrices [p]).priceBySymbol s
          = if s = p.Symbol then some p else (t.AddPrices ps).priceBySymbol s := rfl
      rw [h1, ih, List.filter_append]
      by_cases hs : p.Symbol = s
      · subst hs
        simp
      · have hs2 : ¬ s = p.Symbol := fun h => hs h.symm
        simp [hs, hs2]

/-! ## The tick -/

theorem fetchAll_log (symbols : List String) (ads : List Adapter) (tp : PriceProviderPool)
    (log : List Event) :
    (fetchAll symbols ads tp log).2 = log ++ ads.map fun ad => Event.fetch ad.Name symbols := by
  induction ads generalizing tp log with
  | nil => simp [fetchAll]
  | cons ad rest ih => simp [fetchAll, ih]

theorem fetchAll_providerPool (symbols : List String) (ads : List Adapter)
    (tp : PriceProviderPool) (log : List Event) :
    (fetchAll symbols ads tp log).1.providerPool = tp.providerPool := by
  induction ads generalizing tp log with
  | nil => simp [fetchAll]
  | cons ad rest ih => simp [fetchAll, ih, PriceProviderPool.addPricesAt]

theorem allRegistered_fetched (os : OracleService) :
    allRegistered os.fetched os.adapters = allRegistered os.priceProviderPool os.adapters := by
  simp [allRegistered, OracleService.fetched, PriceProviderPool.GetPriceProvider,
    fetchAll_providerPool]

/-- With every adapter registered the inner loop returns the fresh values. -/
theorem collectPrices_eq (tp : PriceProviderPool) (now : Int) (s : String) (ads : List Adapter)
    (acc : List Decimal) (hreg : allRegistered tp ads = true) :
    collectPrices tp now s ads acc = .ok (acc ++ freshValues tp now s ads) := by
  induction ads generalizing acc with
  | nil => simp [collectPrices, freshValues, observations]
  | cons ad rest ih =>
      have hreg2 : (tp.GetPriceProvider ad.Name).isSome = true ∧ allRegistered tp rest = true := by
        simpa [allRegistered] using hreg
      obtain ⟨a, ha⟩ := Option.isSome_iff_exists.mp hreg2.1
      simp only [collectPrices, ha, PriceProviderPool.getPriceAt]
      rw [ih _ hreg2.2]
      by_cases hf : fresh now ((tp.objs a).GetPrice s) = true
      · simp [freshValues, observations, ha, hf, List.filterMap_cons]
      · simp [freshValues, observations, ha, hf, List.filterMap_cons]

/-- An adapter whose name has no provider makes the inner loop panic. -/
theorem collectPrices_panic (tp : PriceProviderPool) (now : Int) (s : String)
    (ads : List Adapter) (acc : List Decimal) (hreg : allRegistered tp ads = false) :
    collectPrices tp now s ads acc = .error Panic.nilDereference := by
  induction ads generalizing acc with
  | nil => simp [allRegistered] at hreg
  | cons ad rest ih =>
      cases ha : tp.GetPriceProvider ad.Name with
      | none => simp [collectPrices, ha, PriceProviderPool.getPriceAt]
      | some a =>
          have : allRegistered tp rest = false := by
            simpa [allRegistered, ha] using hreg
          simp only [collectPrices, ha, PriceProviderPool.getPriceAt]
          exact ih _ this

theorem entryFor_idem (agg : Aggregator) (now : Int) (k : String) (vs : List Decimal)
    (old : Option Price) :
    entryFor agg now k vs (entryFor agg now k vs old) = entryFor agg now k vs old := by
  match vs with
  | [] => rfl
  | [_] => rfl
  | v :: w :: rest =>
      simp only [entryFor]
      cases agg (v :: w :: rest) <;> rfl

/-- The state after the loop body for symbol `s`. -/
theorem updateSymbol_eq (now : Int) (os : OracleService) (log : List Event) (s : String)
    (hreg : allRegistered os.priceProviderPool os.adapters = true)
    (hagg : os.aggregator.Total) :
    updateSymbol now os log s
      = .ok ({ os with
                prices := fun k =>
                  if k = s then
                    entryFor os.aggregator now s
                      (freshValues os.priceProviderPool now s os.adapters) (os.prices k)
                  else os.prices k },
             log ++ aggregateEvents os.priceProviderPool now os.adapters [s]) := by
  unfold updateSymbol
  rw [collectPrices_eq _ _ _ _ _ hreg]
  simp only [List.nil_append]
  match hv : freshValues os.priceProviderPool now s os.adapters with
  | [] =>
      simp only [entryFor, aggregateEvents, hv, List.filterMap_cons, List.filterMap_nil]
      simp
  | [v] =>
      simp only [entryFor, aggregateEvents, hv, List.filterMap_cons, List.filterMap_nil]
      simp only [OracleService.UpdatePrice, PriceBySymbol.insert, List.length_singleton,
        gt_iff_lt, lt_self_iff_false, if_false, Nat.reduceLeDiff, List.append_nil]
      rfl
  | v :: w :: rest =>
      obtain ⟨a, ha⟩ := hagg (v :: w :: rest) (by simp)
      simp only [entryFor, aggregateEvents, hv, List.filterMap_cons, List.filterMap_nil, ha]
      simp [OracleService.UpdatePrice]
      rfl

/-- The state after the loop over the symbols `syms`. -/
theorem updateSymbols_eq (now : Int) (syms : List String) (os : OracleService)
    (log : List Event)
    (hreg : allRegistered os.priceProviderPool os.adapters = true)
    (hagg : os.aggregator.Total) :
    updateSymbols now syms os log
      = .ok ({ os with
                prices := fun k =>
                  if k ∈ syms then
                    entryFor os.aggregator now k
                      (freshValues os.priceProviderPool now k os.adapters) (os.prices k)
                  else os.prices k },
             log ++ aggregateEvents os.priceProviderPool now os.adapters syms) := by
  induction syms generalizing os log with
  | nil => simp [updateSymbols, aggregateEvents]
  | cons s rest ih =>
      simp only [updateSymbols]
      rw [updateSymbol_eq now os log s hreg hagg]
      simp only
      refine (ih _ _ ?_ ?_).trans ?_
      · exact hreg
      · exact hagg
      simp only [Except.ok.injEq, Prod.mk.injEq]
      refine ⟨?_, ?_⟩
      · congr 1
        funext k
        by_cases hks : k = s
        · subst hks
          by_cases hk : k ∈ rest
          · simp [hk, entryFor_idem]
          · simp [hk]
        · simp [hks]
      · simp [aggregateEvents, List.filterMap_cons]
        split <;> simp

/-- The whole tick, when every adapter is registered and the aggregator is
total: the table entry of each tracked symbol is recomputed from the fresh
values held after the fetch phase, every other entry is kept, and the calls
made are one `FetchPrices` per adapter followed by the `Aggregate` calls. -/
theorem UpdatePrices_eq (os : OracleService) (now : Int)
    (hreg : allRegistered os.priceProviderPool os.adapters = true)
    (hagg : os.aggregator.Total) :
    os.UpdatePrices now
      = .ok ({ os with
                priceProviderPool := os.fetched
                prices := fun k =>
                  if k ∈ os.symbols then
                    entryFor os.aggregator now k (freshValues os.fetched now k os.adapters)
                      (os.prices k)
                  else os.prices k },
             (os.adapters.map fun ad => Event.fetch ad.Name os.symbols)
               ++ aggregateEvents os.fetched now os.adapters os.symbols) := by
  have hreg2 := (allRegistered_fetched os).trans hreg
  unfold OracleService.UpdatePrices
  simp only
  refine (updateSymbols_eq now os.symbols _ _ ?_ ?_).trans ?_
  · exact hreg2
  · exact hagg
  simp only [fetchAll_log, List.nil_append]
  rfl

/-- With a tracked symbol and an adapter without a registered provider the
tick panics. -/
theorem UpdatePrices_panic (os : OracleService) (now : Int) (hs : os.symbols ≠ [])
    (hreg : allRegistered os.priceProviderPool os.adapters = false) :
    os.UpdatePrices now = .error Panic.nilDereference := by
  have hreg2 := (allRegistered_fetched os).trans hreg
  unfold OracleService.UpdatePrices
  cases hsym : os.symbols with
  | nil => exact absurd hsym hs
  | cons s rest =>
      rw [← hsym]
      simp only [hsym, updateSymbols, updateSymbol]
      rw [collectPrices_panic _ _ _ _ _ (by simpa [OracleService.fetched, hsym] using hreg2)]

theorem NewAveragePriceAggregator_total : NewAveragePriceAggregator.Total := by
  intro vs hvs
  match vs, hvs with
  | p :: ps, _ => exact ⟨_, rfl⟩

theorem entryFor_many (agg : Aggregator) (now : Int) (k : String) (vs : List Decimal)
    (old : Option Price) (v : Decimal) (hlen : 1 < vs.length) (hv : agg vs = .ok v) :
    entryFor agg now k vs old = some { Timestamp := now, Price := v, Symbol := k } := by
  match vs, hlen with
  | a :: b :: rest, _ => simp only [entryFor, hv]

theorem foldl_addConfiguredProvider_aggregator (binance : Adapter) (providers : List String)
    (os : OracleService) :
    (providers.foldl (addConfiguredProvider binance) os).aggregator = os.aggregator := by
  induction providers generalizing os with
  | nil => rfl
  | cons provider rest ih =>
      simp only [List.foldl_cons, ih]
      unfold addConfiguredProvider
      split <;> rfl

/-- The service made by the constructor aggregates with the arithmetic mean. -/
theorem NewOracleService_aggregator (config : OracleServiceConfig) (binance : Adapter) :
    (NewOracleService config binance).aggregator = NewAveragePriceAggregator := by
  unfold NewOracleService
  rw [foldl_addConfiguredProvider_aggregator]

/-! ## The claims -/

/-- C1 (the code departs from the claim): at `now = 1700000000000` an observation
with the least `int64` timestamp is not within the freshness window, its age
`now - Timestamp` being far above 180000 ms, yet the subtraction of line 100
wraps around, the observation passes the test, and the tick publishes it. -/
theorem UpdatePrices_includes_overflowing_age :
    isInt64 (-9223372036854775808) ∧ isInt64 1700000000000 ∧
    (staleHeld.objs 0).GetPrice "X"
      = { Timestamp := -9223372036854775808, Price := 5, Symbol := "X" } ∧
    ¬ ((1700000000000 : Int) - (-9223372036854775808) < 180000 ∧
        (-9223372036854775808 : Int) ≤ 1700000000000) ∧
    fresh 1700000000000 ((staleHeld.objs 0).GetPrice "X") = true ∧
    collectPrices staleHeld 1700000000000 "X" [idleAdapter] [] = .ok [5] ∧
    ∃ os' log, (demoService staleHeld [idleAdapter] ["X"]).UpdatePrices 1700000000000
        = .ok (os', log) ∧
      os'.GetPrices "X" = some { Timestamp := 1700000000000, Price := 5, Symbol := "X" } := by
  refine ⟨by decide, by decide, rfl, by decide, by decide, rfl, _, _, rfl, rfl⟩

/-- C2: for a tracked symbol with more than one fresh observation, the tick
returns and the entry published under the symbol carries the value that the
aggregator returns on the fresh values (one per adapter, in adapter order) and
the captured time `now` as its timestamp. -/
theorem UpdatePrices_publishes_aggregate (os : OracleService) (now : Int) (s : String)
    (hs : s ∈ os.symbols)
    (hreg : allRegistered os.priceProviderPool os.adapters = true)
    (hagg : os.aggregator.Total)
    (hmany : 1 < (freshValues os.fetched now s os.adapters).length) :
    ∃ os' log v, os.UpdatePrices now = .ok (os', log) ∧
      os.aggregator (freshValues os.fetched now s os.adapters) = .ok v ∧
      os'.GetPrices s = some { Timestamp := now, Price := v, Symbol := s } := by
  obtain ⟨v, hv⟩ := hagg _ hmany
  refine ⟨_, _, v, UpdatePrices_eq os now hreg hagg, hv, ?_⟩
  simp only [OracleService.GetPrices, hs, if_true]
  exact entryFor_many _ _ _ _ _ v hmany hv

theorem UpdatePrices_publishes_aggregate_witness :
    "Y" ∈ (demoService heldByA [idleAdapter, workingAdapter] ["Y"]).symbols ∧
    freshValues (demoService heldByA [idleAdapter, workingAdapter] ["Y"]).fetched
      1700000000000 "Y" [idleAdapter, workingAdapter] = [1, 3] ∧
    ∃ os' log v,
      (demoService heldByA [idleAdapter, workingAdapter] ["Y"]).UpdatePrices 1700000000000
        = .ok (os', log) ∧
      NewAveragePriceAggregator
        (freshValues (demoService heldByA [idleAdapter, workingAdapter] ["Y"]).fetched
          1700000000000 "Y" [idleAdapter, workingAdapter]) = .ok v ∧
      os'.GetPrices "Y" = some { Timestamp := 1700000000000, Price := v, Symbol := "Y" } :=
  ⟨by decide, by decide,
    UpdatePrices_publishes_aggregate (demoService heldByA [idleAdapter, workingAdapter] ["Y"])
      1700000000000 "Y" (by decide) (by decide) NewAveragePriceAggregator_total (by decide)⟩

/-- C3: for a tracked symbol with exactly one fresh observation, the tick
returns, the price value published under the symbol is the value of that
observation, and the tick makes no `Aggregate` call for the symbol. -/
theorem UpdatePrices_single_value_not_aggregated (os : OracleService) (now : Int) (s : String)
    (p : Price) (hs : s ∈ os.symbols)
    (hreg : allRegistered os.priceProviderPool os.adapters = true)
    (hagg : os.aggregator.Total)
    (hone : (observations os.fetched s os.adapters).filter (fresh now) = [p]) :
    ∃ os' log, os.UpdatePrices now = .ok (os', log) ∧
      (os'.GetPrices.index s).Price = p.Price ∧
      ∀ vs, Event.aggregate s vs ∉ log := by
  have hfv : freshValues os.fetched now s os.adapters = [p.Price] := by
    simp [freshValues, hone]
  refine ⟨_, _, UpdatePrices_eq os now hreg hagg, ?_, ?_⟩
  · simp [OracleService.GetPrices, PriceBySymbol.index, hs, hfv, entryFor]
  · intro vs hmem
    simp only [List.mem_append, List.mem_map, aggregateEvents, List.mem_filterMap] at hmem
    rcases hmem with ⟨ad, _, had⟩ | ⟨k, _, hk⟩
    · exact Event.noConfusion had
    · split at hk
      · simp only [Option.some.injEq, Event.aggregate.injEq] at hk
        obtain ⟨rfl, -⟩ := hk
        simp [hfv] at *
      · exact Option.noConfusion hk

theorem UpdatePrices_single_value_not_aggregated_witness :
    "Y" ∈ (demoService twoProviders [idleAdapter, workingAdapter] ["Y"]).symbols ∧
    ∃ os' log,
      (demoService twoProviders [idleAdapter, workingAdapter] ["Y"]).UpdatePrices 1700000000000
        = .ok (os', log) ∧
      (os'.GetPrices.index "Y").Price
        = ({ Timestamp := 1699999999000, Price := 3, Symbol := "Y" } : Price).Price ∧
      ∀ vs, Event.aggregate "Y" vs ∉ log :=
  ⟨by decide,
    UpdatePrices_single_value_not_aggregated
      (demoService twoProviders [idleAdapter, workingAdapter] ["Y"]) 1700000000000 "Y"
      { Timestamp := 1699999999000, Price := 3, Symbol := "Y" } (by decide) (by decide)
      NewAveragePriceAggregator_total (by decide)⟩

/-- C4 (the claim as stated fails): with the single fresh observation
`{1699999999000, 3, "Y"}` the tick at 1700000000000 stores an entry that differs
from the observation, its timestamp being the time of the tick. -/
theorem UpdatePrices_single_not_unchanged :
    (observations (demoService twoProviders [idleAdapter, workingAdapter] ["Y"]).fetched "Y"
        [idleAdapter, workingAdapter]).filter (fresh 1700000000000)
      = [{ Timestamp := 1699999999000, Price := 3, Symbol := "Y" }] ∧
    ∃ os' log,
      (demoService twoProviders [idleAdapter, workingAdapter] ["Y"]).UpdatePrices 1700000000000
        = .ok (os', log) ∧
      os'.GetPrices "Y" = some { Timestamp := 1700000000000, Price := 3, Symbol := "Y" } ∧
      os'.GetPrices "Y" ≠ some { Timestamp := 1699999999000, Price := 3, Symbol := "Y" } := by
  refine ⟨by decide, _, _, rfl, rfl, ?_⟩
  intro h
  have h2 := congrArg (fun e : Option Price => e.map (·.Timestamp)) h
  revert h2
  decide

/-- C4 (amended): for a tracked symbol with exactly one fresh observation, the
tick returns and the entry stored under the symbol has the price of that
observation, the tracked symbol as its symbol, and the captured time `now` of
the tick as its timestamp. -/
theorem UpdatePrices_single_entry (os : OracleService) (now : Int) (s : String)
    (p : Price) (hs : s ∈ os.symbols)
    (hreg : allRegistered os.priceProviderPool os.adapters = true)
    (hagg : os.aggregator.Total)
    (hone : (observations os.fetched s os.adapters).filter (fresh now) = [p]) :
    ∃ os' log, os.UpdatePrices now = .ok (os', log) ∧
      os'.GetPrices s = some { Timestamp := now, Price := p.Price, Symbol := s } := by
  have hfv : freshValues os.fetched now s os.adapters = [p.Price] := by
    simp [freshValues, hone]
  refine ⟨_, _, UpdatePrices_eq os now hreg hagg, ?_⟩
  simp [OracleService.GetPrices, hs, hfv, entryFor]

theorem UpdatePrices_single_entry_witness :
    "Y" ∈ (demoService twoProviders [idleAdapter, workingAdapter] ["Y", "Z"]).symbols ∧
    ∃ os' log,
      (demoService twoProviders [idleAdapter, workingAdapter] ["Y", "Z"]).UpdatePrices
        1700000000000 = .ok (os', log) ∧
      os'.GetPrices "Y"
        = some { Timestamp := 1700000000000,
                 Price := ({ Timestamp := 1699999999000, Price := 3, Symbol := "Y" } : Price).Price,
                 Symbol := "Y" } :=
  ⟨by decide,
    UpdatePrices_single_entry
      (demoService twoProviders [idleAdapter, workingAdapter] ["Y", "Z"]) 1700000000000 "Y"
      { Timestamp := 1699999999000, Price := 3, Symbol := "Y" } (by decide) (by decide)
      NewAveragePriceAggregator_total (by decide)⟩

/-- C5: for a symbol with no fresh observation in the tick, the tick returns
and the entry of the symbol in the aggregated price table is the one from
before the tick, present with the same value or still absent. -/
theorem UpdatePrices_keeps_entry_without_fresh (os : OracleService) (now : Int) (s : String)
    (hreg : allRegistered os.priceProviderPool os.adapters = true)
    (hagg : os.aggregator.Total)
    (hnone : (observations os.fetched s os.adapters).filter (fresh now) = []) :
    ∃ os' log, os.UpdatePrices now = .ok (os', log) ∧ os'.GetPrices s = os.GetPrices s := by
  have hfv : freshValues os.fetched now s os.adapters = [] := by
    simp [freshValues, hnone]
  refine ⟨_, _, UpdatePrices_eq os now hreg hagg, ?_⟩
  simp [OracleService.GetPrices, hfv, entryFor]

theorem UpdatePrices_keeps_entry_without_fresh_witness :
    (observations
        ((demoService heldByA [idleAdapter, idleAdapterB] ["Y"]).UpdatePrice "Y"
          { Timestamp := 1600000000000, Price := 7, Symbol := "Y" }).fetched "Y"
        [idleAdapter, idleAdapterB]).filter (fresh 1800000000000) = [] ∧
    ∃ os' log,
      (((demoService heldByA [idleAdapter, idleAdapterB] ["Y"]).UpdatePrice "Y"
          { Timestamp := 1600000000000, Price := 7, Symbol := "Y" }).UpdatePrices
        1800000000000) = .ok (os', log) ∧
      os'.GetPrices "Y"
        = ((demoService heldByA [idleAdapter, idleAdapterB] ["Y"]).UpdatePrice "Y"
            { Timestamp := 1600000000000, Price := 7, Symbol := "Y" }).GetPrices "Y" :=
  ⟨by decide,
    UpdatePrices_keeps_entry_without_fresh
      ((demoService heldByA [idleAdapter, idleAdapterB] ["Y"]).UpdatePrice "Y"
        { Timestamp := 1600000000000, Price := 7, Symbol := "Y" })
      1800000000000 "Y" (by decide) NewAveragePriceAggregator_total (by decide)⟩

/-- C6: after any sequence of `AddPrices` calls on a provider, for a symbol that
occurs in at least one written observation, `GetPrice` returns the last
observation written for that symbol, the observations being taken call after
call and, within a call, in slice order. -/
theorem GetPrice_last_write_wins (t : PriceProvider) (calls : List (List Price)) (s : String)
    (hs : ∃ c ∈ calls, ∃ p ∈ c, p.Symbol = s) :
    (calls.flatten.filter fun p => p.Symbol = s).getLast?
      = some ((calls.foldl PriceProvider.AddPrices t).GetPrice s) := by
  obtain ⟨c, hc, p, hp, hps⟩ := hs
  have hne : (calls.flatten.filter fun p => p.Symbol = s) ≠ [] := by
    intro h
    have hmem : p ∈ calls.flatten.filter fun p => p.Symbol = s := by
      simp only [List.mem_filter, List.mem_flatten, decide_eq_true_eq]
      exact ⟨⟨c, hc, hp⟩, hps⟩
    rw [h] at hmem
    exact List.not_mem_nil _ hmem
  rw [foldl_AddPrices, PriceProvider.GetPrice, PriceBySymbol.index, AddPrices_lookup,
    List.getLast?_eq_getLast _ hne]
  rfl

theorem GetPrice_last_write_wins_witness :
    (∃ c ∈ [[({ Timestamp := 1, Price := 10, Symbol := "X" } : Price),
              { Timestamp := 2, Price := 20, Symbol := "X" }],
            [{ Timestamp := 3, Price := 30, Symbol := "Y" }]],
        ∃ p ∈ c, p.Symbol = "X") ∧
    ([[({ Timestamp := 1, Price := 10, Symbol := "X" } : Price),
        { Timestamp := 2, Price := 20, Symbol := "X" }],
      [{ Timestamp := 3, Price := 30, Symbol := "Y" }]].flatten.filter
        fun p => p.Symbol = "X").getLast?
      = some (([[({ Timestamp := 1, Price := 10, Symbol := "X" } : Price),
                  { Timestamp := 2, Price := 20, Symbol := "X" }],
                [{ Timestamp := 3, Price := 30, Symbol := "Y" }]].foldl
              PriceProvider.AddPrices (NewPriceProvider "Binance")).GetPrice "X") :=
  ⟨⟨_, List.mem_cons_self _ _, _, List.mem_cons_self _ _, rfl⟩,
    GetPrice_last_write_wins (NewPriceProvider "Binance") _ "X"
      ⟨_, List.mem_cons_self _ _, _, List.mem_cons_self _ _, rfl⟩⟩

/-- C7: on a provider made by `NewPriceProvider` and written by any sequence of
`AddPrices` calls none of which carries the symbol, `GetPrice` returns the
zero-value price (empty symbol, zero price, timestamp 0); it is a total
function, so the call never fails. The empty sequence of calls is the freshly
created provider. -/
theorem GetPrice_never_written (name : String) (calls : List (List Price)) (s : String)
    (hs : ∀ c ∈ calls, ∀ p ∈ c, p.Symbol ≠ s) :
    (calls.foldl PriceProvider.AddPrices (NewPriceProvider name)).GetPrice s
      = { Timestamp := 0, Price := 0, Symbol := "" } := by
  have hnil : (calls.flatten.filter fun p => p.Symbol = s) = [] := by
    rw [List.filter_eq_nil_iff]
    intro p hp
    obtain ⟨c, hc, hpc⟩ := List.mem_flatten.mp hp
    simpa using hs c hc p hpc
  rw [foldl_AddPrices, PriceProvider.GetPrice, PriceBySymbol.index, AddPrices_lookup, hnil]
  rfl

theorem GetPrice_never_written_witness :
    (∀ c ∈ [[({ Timestamp := 1, Price := 10, Symbol := "X" } : Price)]],
        ∀ p ∈ c, p.Symbol ≠ "Y") ∧
    ([[({ Timestamp := 1, Price := 10, Symbol := "X" } : Price)]].foldl
        PriceProvider.AddPrices (NewPriceProvider "Binance")).GetPrice "Y"
      = { Timestamp := 0, Price := 0, Symbol := "" } :=
  ⟨by simp, GetPrice_never_written "Binance" _ "Y" (by simp)⟩

/-- C8 (the claim as stated fails): with the tracked symbol "X" and the
adapter "A", whose name has no entry in the registry, `GetPriceProvider`
returns nil and the tick panics on the nil receiver of `GetPrice`. -/
theorem UpdatePrices_panics_on_unknown_provider :
    NewPriceProviderPool.GetPriceProvider idleAdapter.Name = none ∧
    (demoService NewPriceProviderPool [idleAdapter] ["X"]).UpdatePrices 1700000000000
      = .error Panic.nilDereference :=
  ⟨rfl, UpdatePrices_panic _ _ (by decide) (by decide)⟩

/-- The registry after the fetch phase with two adapters, the first of which
writes nothing. -/
theorem fetchAll_two_first_silent (symbols : List String) (a b : Adapter)
    (tp : PriceProviderPool) (ha : (a.FetchPrices symbols).written = []) :
    (fetchAll symbols [a, b] tp []).1.objs
      = fun x => if x = b.pool then (tp.objs x).AddPrices (b.FetchPrices symbols).written
                 else tp.objs x := by
  funext x
  simp only [fetchAll, PriceProviderPool.addPricesAt, ha, AddPrices_nil, ite_self]

/-- The registry after the fetch phase with two adapters, the second of which
writes nothing. -/
theorem fetchAll_two_second_silent (symbols : List String) (a b : Adapter)
    (tp : PriceProviderPool) (ha : (a.FetchPrices symbols).written = []) :
    (fetchAll symbols [b, a] tp []).1.objs
      = fun x => if x = b.pool then (tp.objs x).AddPrices (b.FetchPrices symbols).written
                 else tp.objs x := by
  funext x
  simp only [fetchAll, PriceProviderPool.addPricesAt, ha, AddPrices_nil, ite_self]

/-- What a provider holds for `s` after `AddPrices` when the slice names `s`. -/
theorem GetPrice_AddPrices_of_last (t : PriceProvider) (ps : List Price) (s : String) (p : Price)
    (hp : (ps.filter fun q => q.Symbol = s).getLast? = some p) :
    (t.AddPrices ps).GetPrice s = p := by
  rw [PriceProvider.GetPrice, PriceBySymbol.index, AddPrices_lookup, hp]
  rfl

/-- C9 (the claim as stated fails): adapter "A" fails its fetch and writes
nothing, adapter "B" writes the fresh price 3 for "Y"; provider "A" still holds
the price 1 for "Y" from ten seconds before, which is fresh, and the tick
publishes the mean 2, not the value 3 of the second adapter. -/
theorem UpdatePrices_failed_adapter_still_counted :
    (failingAdapter.FetchPrices ["Y"]).err = true ∧
    (failingAdapter.FetchPrices ["Y"]).written = [] ∧
    (workingAdapter.FetchPrices ["Y"]).written
      = [{ Timestamp := 1699999999000, Price := 3, Symbol := "Y" }] ∧
    fresh 1700000000000 { Timestamp := 1699999999000, Price := 3, Symbol := "Y" } = true ∧
    ∃ os' log,
      (demoService heldByA [failingAdapter, workingAdapter] ["Y"]).UpdatePrices 1700000000000
        = .ok (os', log) ∧
      (os'.GetPrices.index "Y").Price = 2 ∧ (os'.GetPrices.index "Y").Price ≠ 3 := by
  have hfv : freshValues (demoService heldByA [failingAdapter, workingAdapter] ["Y"]).fetched
      1700000000000 "Y" (demoService heldByA [failingAdapter, workingAdapter] ["Y"]).adapters
      = [1, 3] := by decide
  have hprice : ∀ os' : OracleService,
      os'.GetPrices "Y" = some { Timestamp := 1700000000000, Price := 2, Symbol := "Y" } →
      (os'.GetPrices.index "Y").Price = 2 ∧ (os'.GetPrices.index "Y").Price ≠ 3 := by
    intro os' h
    rw [PriceBySymbol.index, h]
    norm_num
  refine ⟨rfl, rfl, rfl, by decide, _, _,
    UpdatePrices_eq _ _ (by decide) NewAveragePriceAggregator_total, hprice _ ?_⟩
  simp only [OracleService.GetPrices]
  rw [if_pos (by decide), hfv]
  simp only [entryFor, demoService, NewAveragePriceAggregator]
  norm_num

/-- C9 (amended): in a tick with two adapters registered under their names to
two different providers, where one adapter's fetch returns an error and writes
nothing and its provider holds no fresh observation for the tracked symbol `Y`,
while the other adapter writes a fresh observation `p` for `Y`: the tick calls
`FetchPrices` on both adapters, returns without a panic, and afterwards
`GetPrices()[Y].Price` is the value of `p`. -/
theorem UpdatePrices_one_adapter_fails (os : OracleService) (now : Int) (a b : Adapter)
    (Y : String) (p : Price)
    (hads : os.adapters = [a, b] ∨ os.adapters = [b, a])
    (hY : Y ∈ os.symbols)
    (hra : os.priceProviderPool.GetPriceProvider a.Name = some a.pool)
    (hrb : os.priceProviderPool.GetPriceProvider b.Name = some b.pool)
    (hne : a.pool ≠ b.pool)
    (hagg : os.aggregator.Total)
    (hfail : (a.FetchPrices os.symbols).err = true ∧ (a.FetchPrices os.symbols).written = [])
    (hstale : fresh now ((os.priceProviderPool.objs a.pool).GetPrice Y) = false)
    (hwrite : ((b.FetchPrices os.symbols).written.filter fun q => q.Symbol = Y).getLast? = some p)
    (hfresh : fresh now p = true) :
    ∃ os' log, os.UpdatePrices now = .ok (os', log) ∧
      (os'.GetPrices.index Y).Price = p.Price ∧
      Event.fetch a.Name os.symbols ∈ log ∧ Event.fetch b.Name os.symbols ∈ log := by
  have hreg : allRegistered os.priceProviderPool os.adapters = true := by
    rcases hads with h | h <;> simp [allRegistered, h, hra, hrb]
  have hpool : os.fetched.providerPool = os.priceProviderPool.providerPool :=
    fetchAll_providerPool _ _ _ _
  have hobjs : os.fetched.objs
      = fun x => if x = b.pool then
                   (os.priceProviderPool.objs x).AddPrices (b.FetchPrices os.symbols).written
                 else os.priceProviderPool.objs x := by
    rcases hads with h | h
    · simp only [OracleService.fetched, h]
      exact fetchAll_two_first_silent _ _ _ _ hfail.2
    · simp only [OracleService.fetched, h]
      exact fetchAll_two_second_silent _ _ _ _ hfail.2
  have hga : os.fetched.GetPriceProvider a.Name = some a.pool := by
    simpa [PriceProviderPool.GetPriceProvider, hpool] using hra
  have hgb : os.fetched.GetPriceProvider b.Name = some b.pool := by
    simpa [PriceProviderPool.GetPriceProvider, hpool] using hrb
  have hoa : (os.fetched.objs a.pool).GetPrice Y = (os.priceProviderPool.objs a.pool).GetPrice Y := by
    rw [hobjs]
    simp [hne]
  have hob : (os.fetched.objs b.pool).GetPrice Y = p := by
    rw [hobjs]
    simp only [if_true]
    exact GetPrice_AddPrices_of_last _ _ _ _ hwrite
  have hfv : freshValues os.fetched now Y os.adapters = [p.Price] := by
    rcases hads with h | h <;>
      simp [freshValues, observations, h, hga, hgb, hoa, hob, hstale, hfresh, List.filter_cons]
  refine ⟨_, _, UpdatePrices_eq os now hreg hagg, ?_, ?_, ?_⟩
  · simp [OracleService.GetPrices, PriceBySymbol.index, hY, hfv, entryFor]
  · rcases hads with h | h <;> simp [h]
  · rcases hads with h | h <;> simp [h]

theorem UpdatePrices_one_adapter_fails_witness :
    (failingAdapter.FetchPrices ["Y"]).err = true ∧
    (failingAdapter.FetchPrices ["Y"]).written = [] ∧
    fresh 1700000000000 ((twoProviders.objs failingAdapter.pool).GetPrice "Y") = false ∧
    ((workingAdapter.FetchPrices ["Y"]).written.filter fun q => q.Symbol = "Y").getLast?
      = some { Timestamp := 1699999999000, Price := 3, Symbol := "Y" } ∧
    ∃ os' log,
      (demoService twoProviders [failingAdapter, workingAdapter] ["Y"]).UpdatePrices
        1700000000000 = .ok (os', log) ∧
      (os'.GetPrices.index "Y").Price
        = ({ Timestamp := 1699999999000, Price := 3, Symbol := "Y" } : Price).Price ∧
      Event.fetch "A" ["Y"] ∈ log ∧ Event.fetch "B" ["Y"] ∈ log :=
  ⟨rfl, rfl, by decide, by decide,
    UpdatePrices_one_adapter_fails
      (demoService twoProviders [failingAdapter, workingAdapter] ["Y"]) 1700000000000
      failingAdapter workingAdapter "Y" { Timestamp := 1699999999000, Price := 3, Symbol := "Y" }
      (Or.inl rfl) (by decide) rfl rfl (by decide) NewAveragePriceAggregator_total
      ⟨rfl, rfl⟩ (by decide) (by decide) (by decide)⟩

/-- C10: with the arithmetic-mean aggregator of `NewOracleService`, when the
providers of the two adapters hold for the tracked symbol "X" observations with
the prices 1.00 and 1.02 that both pass the freshness test of the tick, the tick
returns and afterwards `GetPrices()["X"].Price` is 1.01. -/
theorem UpdatePrices_mean_of_two (os : OracleService) (now : Int) (p q : Price)
    (binance : Adapter)
    (hagg : os.aggregator = (NewOracleService os.config binance).aggregator)
    (hX : "X" ∈ os.symbols)
    (hreg : allRegistered os.priceProviderPool os.adapters = true)
    (hobs : observations os.fetched "X" os.adapters = [p, q])
    (hp : p.Price = 1.00) (hq : q.Price = 1.02)
    (hfp : fresh now p = true) (hfq : fresh now q = true) :
    ∃ os' log, os.UpdatePrices now = .ok (os', log) ∧
      (os'.GetPrices.index "X").Price = 1.01 := by
  rw [NewOracleService_aggregator] at hagg
  have htotal : os.aggregator.Total := hagg ▸ NewAveragePriceAggregator_total
  have hfv : freshValues os.fetched now "X" os.adapters = [1.00, 1.02] := by
    simp [freshValues, hobs, hfp, hfq, hp, hq, List.filter_cons]
  refine ⟨_, _, UpdatePrices_eq os now hreg htotal, ?_⟩
  simp only [OracleService.GetPrices, PriceBySymbol.index, hX, if_true, hfv, entryFor, hagg,
    NewAveragePriceAggregator]
  norm_num

theorem UpdatePrices_mean_of_two_witness :
    "X" ∈ (demoService centsHeld [idleAdapter, idleAdapterB] ["X"]).symbols ∧
    observations (demoService centsHeld [idleAdapter, idleAdapterB] ["X"]).fetched "X"
        [idleAdapter, idleAdapterB]
      = [{ Timestamp := 1699999990000, Price := 1.00, Symbol := "X" },
         { Timestamp := 1699999995000, Price := 1.02, Symbol := "X" }] ∧
    ∃ os' log,
      (demoService centsHeld [idleAdapter, idleAdapterB] ["X"]).UpdatePrices 1700000000000
        = .ok (os', log) ∧
      (os'.GetPrices.index "X").Price = 1.01 :=
  ⟨by decide, rfl,
    UpdatePrices_mean_of_two (demoService centsHeld [idleAdapter, idleAdapterB] ["X"])
      1700000000000 { Timestamp := 1699999990000, Price := 1.00, Symbol := "X" }
      { Timestamp := 1699999995000, Price := 1.02, Symbol := "X" } idleAdapter
      (NewOracleService_aggregator _ _).symm (by decide) (by decide) rfl rfl rfl
      (by decide) (by decide)⟩

/-! ## The tick, whenever it returns -/

/-- The loop body, when it returns: the state it returns, and the aggregator
has returned on the fresh values if there are two or more. -/
theorem updateSymbol_of_ok (now : Int) (os : OracleService) (log : List Event) (s : String)
    (r : OracleService × List Event)
    (hreg : allRegistered os.priceProviderPool os.adapters = true)
    (h : updateSymbol now os log s = .ok r) :
    r = ({ os with
            prices := fun k =>
              if k = s then
                entryFor os.aggregator now s
                  (freshValues os.priceProviderPool now s os.adapters) (os.prices k)
              else os.prices k },
         log ++ aggregateEvents os.priceProviderPool now os.adapters [s]) ∧
    (2 ≤ (freshValues os.priceProviderPool now s os.adapters).length →
      ∃ v, os.aggregator (freshValues os.priceProviderPool now s os.adapters) = .ok v) := by
  unfold updateSymbol at h
  rw [collectPrices_eq _ _ _ _ _ hreg] at h
  simp only [List.nil_append] at h
  match hv : freshValues os.priceProviderPool now s os.adapters with
  | [] =>
      rw [hv] at h
      simp only [Except.ok.injEq] at h
      subst h
      simp only [entryFor, aggregateEvents, hv, List.filterMap_cons, List.filterMap_nil]
      simp
  | [v] =>
      rw [hv] at h
      simp only [List.length_singleton, gt_iff_lt, lt_self_iff_false, if_false,
        Except.ok.injEq] at h
      subst h
      simp only [entryFor, aggregateEvents, hv, List.filterMap_cons, List.filterMap_nil]
      simp only [OracleService.UpdatePrice, PriceBySymbol.insert, List.length_singleton,
        Nat.reduceLeDiff, if_false, List.append_nil, false_implies, and_true]
      rfl
  | v :: w :: rest =>
      rw [hv] at h
      cases ha : os.aggregator (v :: w :: rest) with
      | error e => simp [ha] at h
      | ok a =>
          simp only [ha, List.length_cons, gt_iff_lt, Except.ok.injEq] at h
          rw [if_pos (by omega)] at h
          simp only [Except.ok.injEq] at h
          subst h
          simp only [entryFor, aggregateEvents, hv, List.filterMap_cons, List.filterMap_nil, ha]
          simp [OracleService.UpdatePrice]
          rfl

/-- The loop over the symbols, when it returns. -/
theorem updateSymbols_of_ok (now : Int) (syms : List String) (os : OracleService)
    (log : List Event) (r : OracleService × List Event)
    (hreg : allRegistered os.priceProviderPool os.adapters = true)
    (h : updateSymbols now syms os log = .ok r) :
    r = ({ os with
            prices := fun k =>
              if k ∈ syms then
                entryFor os.aggregator now k
                  (freshValues os.priceProviderPool now k os.adapters) (os.prices k)
              else os.prices k },
         log ++ aggregateEvents os.priceProviderPool now os.adapters syms) ∧
    (∀ k ∈ syms, 2 ≤ (freshValues os.priceProviderPool now k os.adapters).length →
      ∃ v, os.aggregator (freshValues os.priceProviderPool now k os.adapters) = .ok v) := by
  induction syms generalizing os log with
  | nil =>
      simp only [updateSymbols, Except.ok.injEq] at h
      subst h
      simp [aggregateEvents]
  | cons s rest ih =>
      simp only [updateSymbols] at h
      cases h1 : updateSymbol now os log s with
      | error e => simp [h1] at h
      | ok r1 =>
          obtain ⟨hr1, hagg1⟩ := updateSymbol_of_ok now os log s r1 hreg h1
          obtain ⟨os1, log1⟩ := r1
          rw [h1] at h
          simp only at h
          simp only [Prod.mk.injEq] at hr1
          obtain ⟨rfl, rfl⟩ := hr1
          obtain ⟨hr, haggr⟩ := ih _ _ (by exact hreg) h
          refine ⟨?_, ?_⟩
          · rw [hr]
            simp only [Prod.mk.injEq]
            refine ⟨?_, ?_⟩
            · congr 1
              funext k
              by_cases hks : k = s
              · subst hks
                by_cases hk : k ∈ rest
                · simp [hk, entryFor_idem]
                · simp [hk]
              · simp [hks]
            · simp [aggregateEvents, List.filterMap_cons]
              split <;> simp
          · intro k hk
            rcases List.mem_cons.mp hk with rfl | hk
            · exact hagg1
            · exact haggr k hk

/-- The tick, whenever it returns: the state and the calls are the ones of
`UpdatePrices_eq`, and the aggregator has returned on the fresh values of every
tracked symbol that has two or more. -/
theorem UpdatePrices_of_ok (os : OracleService) (now : Int) (r : OracleService × List Event)
    (h : os.UpdatePrices now = .ok r) :
    r = ({ os with
            priceProviderPool := os.fetched
            prices := fun k =>
              if k ∈ os.symbols then
                entryFor os.aggregator now k (freshValues os.fetched now k os.adapters)
                  (os.prices k)
              else os.prices k },
         (os.adapters.map fun ad => Event.fetch ad.Name os.symbols)
           ++ aggregateEvents os.fetched now os.adapters os.symbols) ∧
    (∀ k ∈ os.symbols, 2 ≤ (freshValues os.fetched now k os.adapters).length →
      ∃ v, os.aggregator (freshValues os.fetched now k os.adapters) = .ok v) := by
  cases hreg : allRegistered os.priceProviderPool os.adapters with
  | false =>
      by_cases hs : os.symbols = []
      · unfold OracleService.UpdatePrices at h
        simp only [hs, updateSymbols, Except.ok.injEq] at h
        subst h
        simp only [hs, fetchAll_log, List.nil_append, aggregateEvents, List.filterMap_nil,
          List.append_nil, List.not_mem_nil, if_false, false_implies, implies_true, and_true,
          OracleService.fetched]
      · rw [UpdatePrices_panic os now hs hreg] at h
        exact Except.noConfusion h
  | true =>
      have hreg2 := (allRegistered_fetched os).trans hreg
      unfold OracleService.UpdatePrices at h
      simp only at h
      have key := updateSymbols_of_ok now os.symbols _ _ r hreg2 h
      refine ⟨key.1.trans ?_, key.2⟩
      simp only [fetchAll_log, List.nil_append]
      rfl

/-- A symbol with a fresh value that the loop has gone through has an entry
with the time of the tick and its own symbol. -/
theorem entryFor_published (agg : Aggregator) (now : Int) (k : String) (vs : List Decimal)
    (old : Option Price) (hne : vs ≠ [])
    (hagg : 2 ≤ vs.length → ∃ v, agg vs = .ok v) :
    ∃ v, entryFor agg now k vs old = some { Timestamp := now, Price := v, Symbol := k } := by
  match vs, hne, hagg with
  | [v], _, _ => exact ⟨v, rfl⟩
  | v :: w :: rest, _, hagg =>
      obtain ⟨a, ha⟩ := hagg (by simp)
      exact ⟨a, by simp only [entryFor, ha]⟩

/-- The loop body keeps the aggregator of the service. -/
theorem updateSymbol_aggregator (now : Int) (os : OracleService) (log : List Event) (s : String)
    (r : OracleService × List Event) (h : updateSymbol now os log s = .ok r) :
    r.1.aggregator = os.aggregator := by
  unfold updateSymbol at h
  split at h
  · exact Except.noConfusion h
  · simp only [Except.ok.injEq] at h
    subst h
    rfl
  · simp only at h
    split at h
    · split at h
      · exact Except.noConfusion h
      · simp only [Except.ok.injEq] at h
        subst h
        rfl
    · simp only [Except.ok.injEq] at h
      subst h
      rfl

/-- The loop body does not depend on what the aggregator does on sequences of
fewer than two values. -/
theorem updateSymbol_congr (now : Int) (os : OracleService) (log : List Event) (s : String)
    (agg : Aggregator) (hagg : ∀ vs, 2 ≤ vs.length → agg vs = os.aggregator vs) :
    updateSymbol now { os with aggregator := agg } log s
      = (updateSymbol now os log s).map fun r => ({ r.1 with aggregator := agg }, r.2) := by
  unfold updateSymbol
  simp only
  cases collectPrices os.priceProviderPool now s os.adapters [] with
  | error e => rfl
  | ok prices =>
      match prices with
      | [] => rfl
      | [v] => rfl
      | v :: w :: rest =>
          simp only [hagg (v :: w :: rest) (by simp)]
          have hlen : (v :: w :: rest).length > 1 := by simp
          simp only [if_pos hlen]
          cases os.aggregator (v :: w :: rest) <;> rfl

/-- The loop over the symbols does not depend on what the aggregator does on
sequences of fewer than two values. -/
theorem updateSymbols_congr (now : Int) (syms : List String) (os : OracleService)
    (log : List Event) (agg : Aggregator)
    (hagg : ∀ vs, 2 ≤ vs.length → agg vs = os.aggregator vs) :
    updateSymbols now syms { os with aggregator := agg } log
      = (updateSymbols now syms os log).map fun r => ({ r.1 with aggregator := agg }, r.2) := by
  induction syms generalizing os log with
  | nil => rfl
  | cons s rest ih =>
      simp only [updateSymbols]
      rw [updateSymbol_congr now os log s agg hagg]
      cases h1 : updateSymbol now os log s with
      | error e => rfl
      | ok r1 =>
          obtain ⟨os1, log1⟩ := r1
          have ha : os1.aggregator = os.aggregator := updateSymbol_aggregator now os log s _ h1
          simp only [Except.map]
          exact ih os1 log1 (fun vs hvs => by rw [ha]; exact hagg vs hvs)

/-- C11: the tick never calls the aggregator on an empty sequence, nor on a
single value. Whenever the tick returns, every `Aggregate` call it has made
received at least two values; and for every state, the outcome of the tick,
panic or not, is the same when the aggregator is replaced by one that differs
from it only on sequences of fewer than two values. -/
theorem UpdatePrices_aggregates_two_or_more (os : OracleService) (now : Int) :
    (∀ os' log k vs, os.UpdatePrices now = .ok (os', log) →
        Event.aggregate k vs ∈ log → 2 ≤ vs.length) ∧
    (∀ agg : Aggregator, (∀ vs, 2 ≤ vs.length → agg vs = os.aggregator vs) →
        OracleService.UpdatePrices { os with aggregator := agg } now
          = (os.UpdatePrices now).map fun r => ({ r.1 with aggregator := agg }, r.2)) := by
  constructor
  · intro os' log k vs h hmem
    have hlog := congrArg Prod.snd (UpdatePrices_of_ok os now _ h).1
    simp only at hlog
    rw [hlog] at hmem
    simp only [List.mem_append, List.mem_map, aggregateEvents, List.mem_filterMap] at hmem
    rcases hmem with ⟨ad, _, had⟩ | ⟨k2, _, hk⟩
    · exact Event.noConfusion had
    · split at hk
      · rename_i hlen
        simp only [Option.some.injEq, Event.aggregate.injEq] at hk
        obtain ⟨-, rfl⟩ := hk
        exact hlen
      · exact Option.noConfusion hk
  · intro agg hagg
    unfold OracleService.UpdatePrices
    exact updateSymbols_congr now os.symbols
      { os with priceProviderPool := (fetchAll os.symbols os.adapters os.priceProviderPool []).1 }
      (fetchAll os.symbols os.adapters os.priceProviderPool []).2 agg hagg

/-- C12: `UpdateSymbols(xs)` followed by `Symbols()` returns exactly `xs`, the
same elements in the same order. -/
theorem Symbols_UpdateSymbols (os : OracleService) (xs : List String) :
    (os.UpdateSymbols xs).Symbols = xs := rfl

/-- Ticks keep the tracked symbols and the entries of the symbols that are not
tracked. -/
theorem AfterTicks_frame (os post : OracleService) (h : AfterTicks os post) :
    post.symbols = os.symbols ∧ ∀ k, k ∉ os.symbols → post.prices k = os.prices k := by
  induction h with
  | refl => exact ⟨rfl, fun _ _ => rfl⟩
  | tick mid pre post now log _ hsym hprices htick ih =>
      have hpost := (UpdatePrices_of_ok pre now _ htick).1
      simp only [Prod.mk.injEq] at hpost
      obtain ⟨rfl, -⟩ := hpost
      refine ⟨hsym.trans ih.1, fun k hk => ?_⟩
      have hk2 : k ∉ pre.symbols := by rw [hsym, ih.1]; exact hk
      simp only [hk2, if_false]
      rw [hprices]
      exact ih.2 k hk

/-- C13: `UpdateSymbols` leaves the aggregated price table as it is, and after
any number of later ticks the entry of a symbol that is not in the new tracked
list is still the one from before the call: it is never purged. -/
theorem UpdateSymbols_keeps_prices (os : OracleService) (xs : List String) (k : String)
    (post : OracleService) (hk : k ∉ xs) (hrun : AfterTicks (os.UpdateSymbols xs) post) :
    (os.UpdateSymbols xs).GetPrices = os.GetPrices ∧ post.GetPrices k = os.GetPrices k :=
  ⟨rfl, (AfterTicks_frame _ _ hrun).2 k hk⟩

theorem UpdateSymbols_keeps_prices_witness :
    "Y" ∉ ["Z"] ∧
    ∃ post log,
      OracleService.UpdatePrices
        (((demoService twoProviders [idleAdapter, workingAdapter] ["Y"]).UpdatePrice "Y"
          { Timestamp := 1600000000000, Price := 7, Symbol := "Y" }).UpdateSymbols ["Z"])
        1700000000000 = .ok (post, log) ∧
      post.GetPrices "Z" = some { Timestamp := 1700000000000, Price := 3, Symbol := "Z" } ∧
      (((demoService twoProviders [idleAdapter, workingAdapter] ["Y"]).UpdatePrice "Y"
          { Timestamp := 1600000000000, Price := 7, Symbol := "Y" }).UpdateSymbols
          ["Z"]).GetPrices
        = ((demoService twoProviders [idleAdapter, workingAdapter] ["Y"]).UpdatePrice "Y"
          { Timestamp := 1600000000000, Price := 7, Symbol := "Y" }).GetPrices ∧
      post.GetPrices "Y"
        = ((demoService twoProviders [idleAdapter, workingAdapter] ["Y"]).UpdatePrice "Y"
          { Timestamp := 1600000000000, Price := 7, Symbol := "Y" }).GetPrices "Y" :=
  ⟨by decide, _, _, rfl, rfl,
    UpdateSymbols_keeps_prices
      ((demoService twoProviders [idleAdapter, workingAdapter] ["Y"]).UpdatePrice "Y"
        { Timestamp := 1600000000000, Price := 7, Symbol := "Y" })
      ["Z"] "Y" _ (by decide)
      (AfterTicks.tick _ _ _ _ 1700000000000 _ (AfterTicks.refl _) rfl rfl rfl)⟩

/-- Every address in the registry is below the next free address. -/
theorem runPoolOps_lt_next (ops : List PoolOp) (n : String) (a : Nat)
    (h : (runPoolOps ops).GetPriceProvider n = some a) : a < (runPoolOps ops).next := by
  unfold runPoolOps at *
  induction ops using List.reverseRecOn generalizing n a with
  | nil => simp [NewPriceProviderPool, PriceProviderPool.GetPriceProvider] at h
  | append_singleton ops op ih =>
      simp only [List.foldl_append, List.foldl_cons, List.foldl_nil] at h ⊢
      cases op with
      | add provider =>
          simp only [PoolOp.apply, PriceProviderPool.AddPriceProvider,
            PriceProviderPool.GetPriceProvider] at h ⊢
          split at h
          · simp only [Option.some.injEq] at h
            omega
          · exact Nat.lt_succ_of_lt (ih n a h)
      | delete provider =>
          simp only [PoolOp.apply, PriceProviderPool.DeletePriceProvider,
            PriceProviderPool.GetPriceProvider] at h ⊢
          split at h
          · exact Option.noConfusion h
          · exact ih n a h
      | write ptr prices => exact ih n a h

/-- A name that is never added has no provider. -/
theorem runPoolOps_never_added (ops : List PoolOp) (name : String)
    (h : ∀ op ∈ ops, op ≠ PoolOp.add name) :
    (runPoolOps ops).GetPriceProvider name = none := by
  unfold runPoolOps
  induction ops using List.reverseRecOn with
  | nil => rfl
  | append_singleton ops op ih =>
      have ih2 := ih fun o ho => h o (List.mem_append_left _ ho)
      have hop : op ≠ PoolOp.add name := h op (by simp)
      simp only [List.foldl_append, List.foldl_cons, List.foldl_nil]
      cases op with
      | add provider =>
          have hne : name ≠ provider := fun e => hop (by rw [e])
          simp only [PoolOp.apply, PriceProviderPool.AddPriceProvider,
            PriceProviderPool.GetPriceProvider, hne, if_false]
          exact ih2
      | delete provider =>
          simp only [PoolOp.apply, PriceProviderPool.DeletePriceProvider,
            PriceProviderPool.GetPriceProvider]
          split
          · rfl
          · exact ih2
      | write ptr prices => exact ih2

/-- C14: `AddPriceProvider(name)` returns a provider that is registered under
the name from then on, in place of any earlier one, and that is empty: `GetPrice`
on it yields the zero-value price for every symbol. The provider carries the
name, no other provider is touched, and in a registry made by
`NewPriceProviderPool` and any calls the returned provider is a new one, none
of those registered before. -/
theorem AddPriceProvider_registers_empty (tp : PriceProviderPool) (name : String) :
    (tp.AddPriceProvider name).1.GetPriceProvider name = some (tp.AddPriceProvider name).2 ∧
    (∀ s, (tp.AddPriceProvider name).1.getPriceAt
        ((tp.AddPriceProvider name).1.GetPriceProvider name) s
      = .ok { Timestamp := 0, Price := 0, Symbol := "" }) ∧
    ((tp.AddPriceProvider name).1.objs (tp.AddPriceProvider name).2).name = name ∧
    (∀ b, b ≠ (tp.AddPriceProvider name).2 →
      (tp.AddPriceProvider name).1.objs b = tp.objs b) ∧
    (∀ ops n a, (runPoolOps ops).GetPriceProvider n = some a →
      a ≠ ((runPoolOps ops).AddPriceProvider name).2) := by
  refine ⟨?_, ?_, ?_, ?_, ?_⟩
  · simp [PriceProviderPool.AddPriceProvider, PriceProviderPool.GetPriceProvider]
  · intro s
    simp [PriceProviderPool.AddPriceProvider, PriceProviderPool.GetPriceProvider,
      PriceProviderPool.getPriceAt, NewPriceProvider, PriceProvider.GetPrice,
      PriceBySymbol.index, PriceBySymbol.empty, Price.zero]
  · simp [PriceProviderPool.AddPriceProvider, NewPriceProvider]
  · intro b hb
    simp only [PriceProviderPool.AddPriceProvider] at hb ⊢
    simp [hb]
  · intro ops n a h
    have := runPoolOps_lt_next ops n a h
    simp only [PriceProviderPool.AddPriceProvider]
    omega

/-- C15: after `DeletePriceProvider(name)` the name has no provider; a name that
was never added has none either; and the deletion leaves the provider
registered under every other name, and every provider, as it was. -/
theorem DeletePriceProvider_removes (tp : PriceProviderPool) (name other : String)
    (ops : List PoolOp) (hother : other ≠ name)
    (hnever : ∀ op ∈ ops, op ≠ PoolOp.add name) :
    (tp.DeletePriceProvider name).GetPriceProvider name = none ∧
    (runPoolOps ops).GetPriceProvider name = none ∧
    (tp.DeletePriceProvider name).GetPriceProvider other = tp.GetPriceProvider other ∧
    (tp.DeletePriceProvider name).objs = tp.objs := by
  refine ⟨?_, runPoolOps_never_added ops name hnever, ?_, rfl⟩
  · simp [PriceProviderPool.DeletePriceProvider, PriceProviderPool.GetPriceProvider]
  · simp [PriceProviderPool.DeletePriceProvider, PriceProviderPool.GetPriceProvider, hother]

theorem DeletePriceProvider_removes_witness :
    "B" ≠ "A" ∧
    (∀ op ∈ [PoolOp.add "B", PoolOp.delete "A"], op ≠ PoolOp.add "A") ∧
    twoProviders.GetPriceProvider "A" = some 0 ∧
    (twoProviders.DeletePriceProvider "A").GetPriceProvider "A" = none ∧
    (runPoolOps [PoolOp.add "B", PoolOp.delete "A"]).GetPriceProvider "A" = none ∧
    (twoProviders.DeletePriceProvider "A").GetPriceProvider "B"
      = twoProviders.GetPriceProvider "B" ∧
    (twoProviders.DeletePriceProvider "A").objs = twoProviders.objs :=
  ⟨by decide, by simp, rfl,
    DeletePriceProvider_removes twoProviders "A" "B" [PoolOp.add "B", PoolOp.delete "A"]
      (by decide) (by simp)⟩

/-- What the loop over the configured providers keeps and adds. -/
theorem foldl_addConfiguredProvider (binance : Adapter) (providers : List String)
    (os : OracleService) :
    (providers.foldl (addConfiguredProvider binance) os).symbols = os.symbols ∧
    (providers.foldl (addConfiguredProvider binance) os).adapters.length
      = os.adapters.length + providers.count "Binance" ∧
    ∀ name, name ≠ "Binance" →
      (providers.foldl (addConfiguredProvider binance) os).priceProviderPool.GetPriceProvider name
        = os.priceProviderPool.GetPriceProvider name := by
  induction providers generalizing os with
  | nil => simp
  | cons provider rest ih =>
      simp only [List.foldl_cons]
      obtain ⟨h1, h2, h3⟩ := ih (addConfiguredProvider binance os provider)
      by_cases hp : provider = "Binance"
      · subst hp
        refine ⟨h1.trans ?_, h2.trans ?_, fun name hn => (h3 name hn).trans ?_⟩
        · simp [addConfiguredProvider]
        · simp [addConfiguredProvider]
          omega
        · simp [addConfiguredProvider, PriceProviderPool.AddPriceProvider,
            PriceProviderPool.GetPriceProvider, hn]
      · have hstep : addConfiguredProvider binance os provider = os := by
          simp [addConfiguredProvider, hp]
        rw [hstep] at h1 h2 h3 ⊢
        refine ⟨h1, ?_, h3⟩
        rw [h2, List.count_cons_of_ne (fun h => hp h.symm)]

/-- C16 (the claim as stated fails): with the unsupported provider name
"Kraken" in `config.Providers` the constructor returns a service all the same,
with the configured symbols, without an adapter and without a registry entry for
that provider. -/
theorem NewOracleService_skips_unsupported :
    (NewOracleService { Symbols := ["NTNUSD"], Providers := ["Kraken"] } idleAdapter).symbols
      = ["NTNUSD"] ∧
    (NewOracleService { Symbols := ["NTNUSD"], Providers := ["Kraken"] } idleAdapter).adapters
      = [] ∧
    (NewOracleService { Symbols := ["NTNUSD"], Providers := ["Kraken"] }
        idleAdapter).priceProviderPool.GetPriceProvider "Kraken" = none :=
  ⟨rfl, rfl, rfl⟩

/-- C16 (amended): `NewOracleService` signals no error. It returns a service
with the configured symbols in which a provider name other than "Binance" has
no registry entry, and which has one adapter for each occurrence of "Binance"
in `config.Providers`: every other name is skipped. -/
theorem NewOracleService_keeps_Binance_only (config : OracleServiceConfig) (binance : Adapter)
    (name : String) (hname : name ≠ "Binance") :
    (NewOracleService config binance).symbols = config.Symbols ∧
    (NewOracleService config binance).priceProviderPool.GetPriceProvider name = none ∧
    (NewOracleService config binance).adapters.length = config.Providers.count "Binance" := by
  obtain ⟨h1, h2, h3⟩ := foldl_addConfiguredProvider binance config.Providers
    { version := "v0.0.1"
      config := config
      symbols := config.Symbols
      prices := PriceBySymbol.empty
      aggregator := NewAveragePriceAggregator
      priceProviderPool := NewPriceProviderPool
      adapters := [] }
  refine ⟨h1, (h3 name hname).trans rfl, h2.trans ?_⟩
  simp

theorem NewOracleService_keeps_Binance_only_witness :
    "Kraken" ≠ "Binance" ∧
    (NewOracleService { Symbols := ["NTNUSD"], Providers := ["Kraken", "Binance"] }
        idleAdapter).symbols = ["NTNUSD"] ∧
    (NewOracleService { Symbols := ["NTNUSD"], Providers := ["Kraken", "Binance"] }
        idleAdapter).priceProviderPool.GetPriceProvider "Kraken" = none ∧
    (NewOracleService { Symbols := ["NTNUSD"], Providers := ["Kraken", "Binance"] }
        idleAdapter).adapters.length = ["Kraken", "Binance"].count "Binance" :=
  ⟨by decide,
    NewOracleService_keeps_Binance_only
      { Symbols := ["NTNUSD"], Providers := ["Kraken", "Binance"] } idleAdapter "Kraken"
      (by decide)⟩

/-- The entry of a tracked symbol with a fresh value after a tick that
returns. -/
theorem UpdatePrices_published (os : OracleService) (now : Int) (os' : OracleService)
    (log : List Event) (s : String) (h : os.UpdatePrices now = .ok (os', log))
    (hs : s ∈ os.symbols) (hpub : freshValues os.fetched now s os.adapters ≠ []) :
    ∃ v, os'.prices s = some { Timestamp := now, Price := v, Symbol := s } := by
  obtain ⟨hr, hagg⟩ := UpdatePrices_of_ok os now _ h
  simp only [Prod.mk.injEq] at hr
  obtain ⟨rfl, -⟩ := hr
  simp only [hs, if_true]
  exact entryFor_published _ _ _ _ _ hpub (hagg s hs)

/-- C17 (the claim as stated fails): a tick at 1700000000000 publishes "Y", and
the next tick, whose clock reading is the earlier 1699999999500, publishes "Y"
again, with the earlier timestamp. -/
theorem UpdatePrices_timestamp_steps_back :
    ∃ os1 log1 os2 log2,
      (demoService twoProviders [idleAdapter, workingAdapter] ["Y"]).UpdatePrices 1700000000000
        = .ok (os1, log1) ∧
      os1.UpdatePrices 1699999999500 = .ok (os2, log2) ∧
      os1.GetPrices "Y" = some { Timestamp := 1700000000000, Price := 3, Symbol := "Y" } ∧
      os2.GetPrices "Y" = some { Timestamp := 1699999999500, Price := 3, Symbol := "Y" } ∧
      (os2.GetPrices.index "Y").Timestamp < (os1.GetPrices.index "Y").Timestamp :=
  ⟨_, _, _, _, rfl, rfl, rfl, rfl, by decide⟩

/-- C17 (amended): when two ticks both publish an entry for the same symbol and
the time captured by the later tick is not earlier than the time captured by
the earlier one, the later entry does not carry an earlier timestamp; each
entry carries the time captured by its tick. Between the two ticks the service
may have changed in any way. -/
theorem UpdatePrices_timestamp_monotone (os pre os1 os2 : OracleService) (now1 now2 : Int)
    (log1 log2 : List Event) (s : String)
    (h1 : os.UpdatePrices now1 = .ok (os1, log1))
    (hs1 : s ∈ os.symbols) (hpub1 : freshValues os.fetched now1 s os.adapters ≠ [])
    (h2 : pre.UpdatePrices now2 = .ok (os2, log2))
    (hs2 : s ∈ pre.symbols) (hpub2 : freshValues pre.fetched now2 s pre.adapters ≠ [])
    (hclock : now1 ≤ now2) :
    (os1.GetPrices.index s).Timestamp = now1 ∧ (os2.GetPrices.index s).Timestamp = now2 ∧
    (os1.GetPrices.index s).Timestamp ≤ (os2.GetPrices.index s).Timestamp := by
  obtain ⟨v1, hv1⟩ := UpdatePrices_published os now1 os1 log1 s h1 hs1 hpub1
  obtain ⟨v2, hv2⟩ := UpdatePrices_published pre now2 os2 log2 s h2 hs2 hpub2
  have e1 : (os1.GetPrices.index s).Timestamp = now1 := by
    simp only [OracleService.GetPrices, PriceBySymbol.index, hv1, Option.getD_some]
  have e2 : (os2.GetPrices.index s).Timestamp = now2 := by
    simp only [OracleService.GetPrices, PriceBySymbol.index, hv2, Option.getD_some]
  exact ⟨e1, e2, by rw [e1, e2]; exact hclock⟩

/-- C18: after a tick that returns, the entry of every tracked symbol published
in the tick, and every entry that the tick has changed, carries the symbol it
is stored under. -/
theorem UpdatePrices_entry_keyed_by_symbol (os : OracleService) (now : Int)
    (os' : OracleService) (log : List Event) (s : String)
    (h : os.UpdatePrices now = .ok (os', log)) :
    (s ∈ os.symbols → freshValues os.fetched now s os.adapters ≠ [] →
      (os'.GetPrices.index s).Symbol = s) ∧
    (os'.GetPrices s ≠ os.GetPrices s → (os'.GetPrices.index s).Symbol = s) := by
  have hpub : s ∈ os.symbols → freshValues os.fetched now s os.adapters ≠ [] →
      (os'.GetPrices.index s).Symbol = s := by
    intro hs hne
    obtain ⟨v, hv⟩ := UpdatePrices_published os now os' log s h hs hne
    simp only [OracleService.GetPrices, PriceBySymbol.index, hv, Option.getD_some]
  refine ⟨hpub, fun hchg => ?_⟩
  have hr := (UpdatePrices_of_ok os now _ h).1
  simp only [Prod.mk.injEq] at hr
  have hprices : os'.prices s
      = if s ∈ os.symbols then
          entryFor os.aggregator now s (freshValues os.fetched now s os.adapters) (os.prices s)
        else os.prices s := by
    rw [hr.1]
  by_cases hs : s ∈ os.symbols
  · refine hpub hs fun hnil => hchg ?_
    simp only [OracleService.GetPrices, hprices, hs, if_true, hnil, entryFor]
  · exact absurd (by simp only [OracleService.GetPrices, hprices, hs, if_false]) hchg

theorem UpdatePrices_timestamp_monotone_witness :
    (1700000000000 : Int) ≤ 1700000010000 ∧
    (demoService twoProviders [idleAdapter, workingAdapter] ["Y"]).UpdatePrices 1700000000000
      = .ok (publishedOnce, [Event.fetch "A" ["Y"], Event.fetch "B" ["Y"]]) ∧
    ∃ os2 log2, publishedOnce.UpdatePrices 1700000010000 = .ok (os2, log2) ∧
      (publishedOnce.GetPrices.index "Y").Timestamp = 1700000000000 ∧
      (os2.GetPrices.index "Y").Timestamp = 1700000010000 ∧
      (publishedOnce.GetPrices.index "Y").Timestamp ≤ (os2.GetPrices.index "Y").Timestamp :=
  ⟨by decide, rfl, _, _, rfl,
    UpdatePrices_timestamp_monotone
      (demoService twoProviders [idleAdapter, workingAdapter] ["Y"]) publishedOnce publishedOnce
      _ 1700000000000 1700000010000 [Event.fetch "A" ["Y"], Event.fetch "B" ["Y"]] _ "Y"
      rfl (by decide) (by decide) rfl (by decide) (by decide) (by decide)⟩

theorem UpdatePrices_entry_keyed_by_symbol_witness :
    ∃ os' log,
      (demoService heldByA [idleAdapter, workingAdapter] ["Y"]).UpdatePrices 1700000000000
        = .ok (os', log) ∧
      "Y" ∈ (demoService heldByA [idleAdapter, workingAdapter] ["Y"]).symbols ∧
      freshValues (demoService heldByA [idleAdapter, workingAdapter] ["Y"]).fetched
        1700000000000 "Y" [idleAdapter, workingAdapter] ≠ [] ∧
      (os'.GetPrices.index "Y").Symbol = "Y" :=
  ⟨_, _, rfl, by decide, by decide,
    (UpdatePrices_entry_keyed_by_symbol
      (demoService heldByA [idleAdapter, workingAdapter] ["Y"]) 1700000000000 _ _ "Y" rfl).1
      (by decide) (by decide)⟩

/-- C19 (the code departs from the claim): `GetPrices` returns the provider's
own map. The map obtained from provider "A", which shows the price 1 for "Y",
shows the price 2 once `AddPrices` has written it to the same provider; and in
general a map obtained before an `AddPrices` call shows the observation written
by it. -/
theorem GetPrices_map_altered_by_AddPrices :
    heldByA.readMap (heldByA.getPricesAt 0) "Y"
      = { Timestamp := 1699999990000, Price := 1, Symbol := "Y" } ∧
    (heldByA.addPricesAt 0 [{ Timestamp := 1700000000000, Price := 2, Symbol := "Y" }]).readMap
        (heldByA.getPricesAt 0) "Y"
      = { Timestamp := 1700000000000, Price := 2, Symbol := "Y" } ∧
    (heldByA.addPricesAt 0 [{ Timestamp := 1700000000000, Price := 2, Symbol := "Y" }]).readMap
        (heldByA.getPricesAt 0) "Y"
      ≠ heldByA.readMap (heldByA.getPricesAt 0) "Y" ∧
    ∀ (tp : PriceProviderPool) (ptr : Nat) (p : Price),
      (tp.addPricesAt ptr [p]).readMap (tp.getPricesAt ptr) p.Symbol = p := by
  refine ⟨rfl, rfl, ?_, ?_⟩
  · intro h
    have h2 := congrArg Price.Timestamp h
    revert h2
    decide
  · intro tp ptr p
    simp [PriceProviderPool.readMap, PriceProviderPool.getPricesAt,
      PriceProviderPool.addPricesAt, PriceProvider.AddPrices, PriceBySymbol.index,
      PriceBySymbol.insert]

/-- The zero-value price fails the freshness test from 180000 ms after the
epoch on, and passes it before. -/
theorem fresh_zero (now : Int) (hnow : isInt64 now) :
    (180000 ≤ now → fresh now Price.zero = false) ∧
    (0 ≤ now → now < 180000 → fresh now Price.zero = true) := by
  have hw : subInt64 now 0 = now := by
    simp only [subInt64, sub_zero]
    exact wrapInt64_eq_self hnow
  constructor
  · intro h
    simp only [fresh, Price.zero, hw, PERIOD]
    simp only [Bool.and_eq_false_imp, decide_eq_true_eq, decide_eq_false_iff_not]
    intro h2
    omega
  · intro h0 h1
    simp only [fresh, Price.zero, hw, PERIOD, Bool.and_eq_true, decide_eq_true_eq]
    omega

/-- C20: a provider that holds no entry for a symbol answers `GetPrice` with
the zero-value price, whose timestamp is 0. When the time of the tick is at
least 180000 ms, that price fails the freshness test, so a tracked symbol that
no registered provider holds has no fresh value: the tick makes no `Aggregate`
call for it and leaves its table entry as it was. When the time of the tick is
in [0, 180000), the zero-value price passes the test. -/
theorem absent_symbol_not_fresh (os os' : OracleService) (log : List Event) (now : Int)
    (s : String) (t : PriceProvider)
    (habs : t.priceBySymbol s = none) (hnow : isInt64 now)
    (hall : ∀ ad ∈ os.adapters, ∀ a, os.fetched.GetPriceProvider ad.Name = some a →
      (os.fetched.objs a).priceBySymbol s = none)
    (h : os.UpdatePrices now = .ok (os', log)) :
    t.GetPrice s = { Timestamp := 0, Price := 0, Symbol := "" } ∧
    (180000 ≤ now → fresh now (t.GetPrice s) = false) ∧
    (0 ≤ now → now < 180000 → fresh now (t.GetPrice s) = true) ∧
    (180000 ≤ now →
      freshValues os.fetched now s os.adapters = [] ∧
      (∀ vs, Event.aggregate s vs ∉ log) ∧
      os'.GetPrices s = os.GetPrices s) := by
  have hzero : ∀ u : PriceProvider, u.priceBySymbol s = none → u.GetPrice s = Price.zero := by
    intro u hu
    simp [PriceProvider.GetPrice, PriceBySymbol.index, hu]
  refine ⟨hzero t habs, ?_, ?_, ?_⟩
  · rw [hzero t habs]
    exact (fresh_zero now hnow).1
  · rw [hzero t habs]
    exact (fresh_zero now hnow).2
  · intro hlate
    have hfv : freshValues os.fetched now s os.adapters = [] := by
      simp only [freshValues, List.map_eq_nil_iff, List.filter_eq_nil_iff, observations,
        List.mem_filterMap, Option.map_eq_some']
      rintro p ⟨ad, had, a, ha, rfl⟩
      rw [hzero _ (hall ad had a ha), (fresh_zero now hnow).1 hlate]
      simp
    have hr := (UpdatePrices_of_ok os now _ h).1
    simp only [Prod.mk.injEq] at hr
    obtain ⟨rfl, rfl⟩ := hr
    refine ⟨hfv, ?_, ?_⟩
    · intro vs hmem
      simp only [List.mem_append, List.mem_map, aggregateEvents, List.mem_filterMap] at hmem
      rcases hmem with ⟨ad, _, had⟩ | ⟨k, _, hk⟩
      · exact Event.noConfusion had
      · split at hk
        · rename_i hlen
          simp only [Option.some.injEq, Event.aggregate.injEq] at hk
          obtain ⟨rfl, -⟩ := hk
          rw [hfv] at hlen
          simp at hlen
        · exact Option.noConfusion hk
    · simp only [OracleService.GetPrices, hfv, entryFor, ite_self]

theorem absent_symbol_not_fresh_witness :
    (NewPriceProvider "A").priceBySymbol "Y" = none ∧ isInt64 1700000000000 ∧
    ∃ os' log,
      (demoService twoProviders [idleAdapter, idleAdapterB] ["Y"]).UpdatePrices 1700000000000
        = .ok (os', log) ∧
      (NewPriceProvider "A").GetPrice "Y" = { Timestamp := 0, Price := 0, Symbol := "" } ∧
      ((180000 : Int) ≤ 1700000000000 →
        fresh 1700000000000 ((NewPriceProvider "A").GetPrice "Y") = false) ∧
      ((0 : Int) ≤ 1700000000000 → (1700000000000 : Int) < 180000 →
        fresh 1700000000000 ((NewPriceProvider "A").GetPrice "Y") = true) ∧
      ((180000 : Int) ≤ 1700000000000 →
        freshValues (demoService twoProviders [idleAdapter, idleAdapterB] ["Y"]).fetched
          1700000000000 "Y"
          (demoService twoProviders [idleAdapter, idleAdapterB] ["Y"]).adapters = [] ∧
        (∀ vs, Event.aggregate "Y" vs ∉ log) ∧
        os'.GetPrices "Y"
          = (demoService twoProviders [idleAdapter, idleAdapterB] ["Y"]).GetPrices "Y") :=
  ⟨rfl, by decide, _, _, rfl,
    absent_symbol_not_fresh (demoService twoProviders [idleAdapter, idleAdapterB] ["Y"]) _ _
      1700000000000 "Y" (NewPriceProvider "A") rfl (by decide)
      (by
        intro ad had a ha
        simp only [demoService, List.mem_cons, List.mem_singleton, List.not_mem_nil,
          or_false] at had
        rcases had with rfl | rfl
        · cases ha
          rfl
        · cases ha
          rfl)
      rfl⟩

/-! ## The simulator configuration -/

/-- An item is left out exactly when it is empty after trimming or does not
have exactly three fields. -/
theorem threeFields_eq_none_iff (it : String) :
    threeFields it = none
      ↔ (TrimSpace it).length = 0 ∨ (Split (TrimSpace it) ':').length ≠ 3 := by
  unfold threeFields
  by_cases h0 : (TrimSpace it).length = 0
  · simp [h0]
  · simp only [h0, if_false, false_or]
    match h : Split (TrimSpace it) ':' with
    | [] => simp
    | [_] => simp
    | [_, _] => simp
    | [_, _, _] => simp
    | _ :: _ :: _ :: _ :: _ => simp

/-- The loop body skips an item that is not a three-field item. -/
theorem parseItem_of_none (parse : DecimalParser) (f1 f2 : Decimal) (result : SimulatorConf)
    (it : String) (h : threeFields it = none) :
    parseItem parse f1 f2 result it = .ok result := by
  unfold threeFields at h
  unfold parseItem
  by_cases h0 : (TrimSpace it).length = 0
  · simp [h0]
  · simp only [h0, if_false] at h ⊢
    split at h
    · exact Option.noConfusion h
    · rfl

/-- The loop body on a three-field item whose numbers are decimals. -/
theorem parseItem_of_some (parse : DecimalParser) (f1 f2 : Decimal) (result : SimulatorConf)
    (it : String) (e : String × String × String) (h : threeFields it = some e)
    (hd : ((parse e.2.1).isSome && (parse e.2.2).isSome) = true) :
    parseItem parse f1 f2 result it
      = .ok fun k => if k = e.1 then some (configOf parse f1 f2 e) else result k := by
  unfold threeFields at h
  unfold parseItem
  by_cases h0 : (TrimSpace it).length = 0
  · simp [h0] at h
  · simp only [h0, if_false] at h ⊢
    split at h
    · rename_i a b c heq
      simp only [Option.some.injEq] at h
      subst h
      simp only [Bool.and_eq_true, Option.isSome_iff_exists] at hd
      obtain ⟨⟨x, hx⟩, ⟨y, hy⟩⟩ := hd
      simp only [heq, RequireFromString, hx, hy, configOf, Option.getD_some]
    · exact Option.noConfusion h

/-- The loop body on a three-field item one of whose numbers is no decimal. -/
theorem parseItem_of_bad (parse : DecimalParser) (f1 f2 : Decimal) (result : SimulatorConf)
    (it : String) (e : String × String × String) (h : threeFields it = some e)
    (hd : ((parse e.2.1).isSome && (parse e.2.2).isSome) = false) :
    ∃ err, parseItem parse f1 f2 result it = .error err := by
  unfold threeFields at h
  unfold parseItem
  by_cases h0 : (TrimSpace it).length = 0
  · simp [h0] at h
  · simp only [h0, if_false] at h ⊢
    split at h
    · rename_i a b c heq
      simp only [Option.some.injEq] at h
      subst h
      simp only [heq, RequireFromString]
      cases hx : parse b with
      | none => exact ⟨_, rfl⟩
      | some x =>
          cases hy : parse c with
          | none => exact ⟨_, rfl⟩
          | some y => simp [hx, hy] at hd
    · exact Option.noConfusion h

/-- The map after the entries have been written to `m` one after the other. -/
theorem parseItems_ok_iff (parse : DecimalParser) (f1 f2 : Decimal) (items : List String)
    (m r : SimulatorConf) :
    parseItems parse f1 f2 items m = .ok r
      ↔ allDecimal parse (entriesOf items) = true ∧
        r = (entriesOf items).foldl
              (fun acc e => fun k => if k = e.1 then some (configOf parse f1 f2 e) else acc k) m := by
  induction items generalizing m with
  | nil => simp [parseItems, entriesOf, allDecimal, eq_comm]
  | cons it rest ih =>
      simp only [parseItems]
      cases h : threeFields it with
      | none =>
          rw [parseItem_of_none parse f1 f2 m it h]
          simp only [ih, entriesOf, List.filterMap_cons, h]
      | some e =>
          cases hd : ((parse e.2.1).isSome && (parse e.2.2).isSome) with
          | true =>
              rw [parseItem_of_some parse f1 f2 m it e h hd]
              simp only [ih, entriesOf, List.filterMap_cons, h, List.foldl_cons, allDecimal,
                List.all_cons, hd, Bool.true_and]
          | false =>
              obtain ⟨err, herr⟩ := parseItem_of_bad parse f1 f2 m it e h hd
              rw [herr]
              simp [entriesOf, List.filterMap_cons, h, allDecimal, hd]

/-- The loop does the same with and without the items that are not three-field
items, panics included. -/
theorem parseItems_filter (parse : DecimalParser) (f1 f2 : Decimal) (items : List String)
    (m : SimulatorConf) :
    parseItems parse f1 f2 items m
      = parseItems parse f1 f2 (items.filter fun it => (threeFields it).isSome) m := by
  induction items generalizing m with
  | nil => rfl
  | cons it rest ih =>
      cases h : threeFields it with
      | none =>
          simp only [List.filter_cons, h, Option.isSome_none, Bool.false_eq_true, if_false]
          simp only [parseItems, parseItem_of_none parse f1 f2 m it h]
          exact ih m
      | some e =>
          simp only [List.filter_cons, h, Option.isSome_some, if_true]
          simp only [parseItems]
          cases parseItem parse f1 f2 m it with
          | error err => rfl
          | ok m1 => exact ih m1

/-- What the written entries leave under a key: the configuration of the last
entry with that key, or the previous value when there is none. -/
theorem foldl_entries_lookup (parse : DecimalParser) (f1 f2 : Decimal)
    (entries : List (String × String × String)) (m : SimulatorConf) (k : String) :
    (entries.foldl
        (fun acc e => fun k => if k = e.1 then some (configOf parse f1 f2 e) else acc k) m) k
      = (((entries.filter fun e => e.1 = k).getLast?).map (configOf parse f1 f2)).orElse
          fun _ => m k := by
  induction entries using List.reverseRecOn with
  | nil => simp
  | append_singleton es e ih =>
      rw [List.foldl_append, List.filter_append]
      simp only [List.foldl_cons, List.foldl_nil]
      by_cases hk : e.1 = k
      · subst hk
        simp
      · have hk2 : ¬ k = e.1 := fun h => hk h.symm
        simp [hk, hk2, ih]

/-- The parser model on the numbers of the default configuration. -/
theorem decimalFromString_default :
    decimalFromString "1.0" = some 1 ∧ decimalFromString "0.01" = some (1 / 100) := by
  have h1 : decimalParts "1.0".data = some (10, -1) := by decide
  have h2 : decimalParts "0.01".data = some (1, -2) := by decide
  constructor
  · simp only [decimalFromString, h1, Option.map_some']
    norm_num
  · simp only [decimalFromString, h2, Option.map_some']
    norm_num

/-- C21 (the claim as stated fails): the second item of
"NTNUSD:1.0:0.01|BAD:x:y" has three fields, the second of which is no decimal;
`decimal.RequireFromString` panics on it and no item is mapped, the well-formed
first item included. -/
theorem ParseSimulatorConf_panics_on_bad_number :
    threeFields "NTNUSD:1.0:0.01" = some ("NTNUSD", "1.0", "0.01") ∧
    threeFields "BAD:x:y" = some ("BAD", "x", "y") ∧
    decimalFromString "x" = none ∧
    ParseSimulatorConf decimalFromString "NTNUSD:1.0:0.01|BAD:x:y" 7 2
      = .error (ConfPanic.cannotConvert "x") :=
  ⟨by decide, by decide, by decide, rfl⟩

/-- C21 (amended): when the second and third field of every three-field item of
the configuration string is a decimal, `ParseSimulatorConf` returns a map in
which every symbol that is the first field of a three-field item has the
configuration of the last such item, start times the data point factor and
rate times the distribution rate factor, and no other symbol has an entry. For
the default configuration with the factors 7 and 2 the map has exactly the
seven symbols of the configuration, and NTNUSD has the configuration
{7, 0.02}. -/
theorem ParseSimulatorConf_maps_three_field_items :
    (∀ (parse : DecimalParser) (conf : String) (f1 f2 : Decimal),
      allDecimal parse (entriesOf (Split conf '|')) = true →
      ∃ result, ParseSimulatorConf parse conf f1 f2 = .ok result ∧
        (∀ symbol, ((entriesOf (Split conf '|')).filter fun e => e.1 = symbol) = [] →
          result symbol = none) ∧
        (∀ symbol first start rate x y,
          ((entriesOf (Split conf '|')).filter fun e => e.1 = symbol).getLast?
            = some (first, start, rate) →
          parse start = some x → parse rate = some y →
          result symbol = some { ReferenceDataPoint := x * f1, DistributionRate := y * f2 })) ∧
    (∃ result,
      ParseSimulatorConf decimalFromString DefSimulatorConf DefDataPointMagnificationFactor
        DefDataDistributionRangeMagnificationFactor = .ok result ∧
      result "NTNUSD" = some { ReferenceDataPoint := 7.0, DistributionRate := 0.02 } ∧
      (∀ k, (result k).isSome
        ↔ k ∈ ["NTNUSD", "NTNAUD", "NTNCAD", "NTNEUR", "NTNGBP", "NTNJPY", "NTNSEK"]) ∧
      ["NTNUSD", "NTNAUD", "NTNCAD", "NTNEUR", "NTNGBP", "NTNJPY", "NTNSEK"].Nodup ∧
      ["NTNUSD", "NTNAUD", "NTNCAD", "NTNEUR", "NTNGBP", "NTNJPY", "NTNSEK"].length = 7) := by
  have general : ∀ (parse : DecimalParser) (conf : String) (f1 f2 : Decimal),
      allDecimal parse (entriesOf (Split conf '|')) = true →
      ParseSimulatorConf parse conf f1 f2
        = .ok fun k =>
            ((((entriesOf (Split conf '|')).filter fun e => e.1 = k).getLast?).map
              (configOf parse f1 f2)) := by
    intro parse conf f1 f2 hd
    unfold ParseSimulatorConf
    rw [parseItems_ok_iff]
    refine ⟨hd, ?_⟩
    funext k
    rw [foldl_entries_lookup]
    cases (((entriesOf (Split conf '|')).filter fun e => e.1 = k).getLast?) <;> rfl
  constructor
  · intro parse conf f1 f2 hd
    refine ⟨_, general parse conf f1 f2 hd, ?_, ?_⟩
    · intro symbol hnil
      simp only [hnil, List.getLast?_nil, Option.map_none']
    · intro symbol first start rate x y hlast hx hy
      simp only [hlast, Option.map_some', configOf, hx, hy, Option.getD_some]
  · have hentries : entriesOf (Split DefSimulatorConf '|')
        = [("NTNUSD", "1.0", "0.01"), ("NTNAUD", "1.408", "0.01"),
           ("NTNCAD", "1.3333", "0.01"), ("NTNEUR", "0.9767", "0.01"),
           ("NTNGBP", "0.813", "0.01"), ("NTNJPY", "128.205", "0.01"),
           ("NTNSEK", "10.309", "0.01")] := by decide
    refine ⟨_, general decimalFromString DefSimulatorConf _ _ (by decide), ?_, ?_,
      by decide, rfl⟩
    · have hlast : ((entriesOf (Split DefSimulatorConf '|')).filter
          fun e => e.1 = "NTNUSD").getLast? = some ("NTNUSD", "1.0", "0.01") := by decide
      simp only [hlast, Option.map_some', configOf, decimalFromString_default.1,
        decimalFromString_default.2, Option.getD_some, DefDataPointMagnificationFactor,
        DefDataDistributionRangeMagnificationFactor]
      norm_num
    · intro k
      rw [hentries]
      simp only [Option.isSome_map', List.mem_cons, List.mem_singleton, List.not_mem_nil,
        or_false]
      constructor
      · intro h
        by_contra hk
        simp only [not_or] at hk
        obtain ⟨h1, h2, h3, h4, h5, h6, h7⟩ := hk
        have e1 : ¬ "NTNUSD" = k := fun e => h1 e.symm
        have e2 : ¬ "NTNAUD" = k := fun e => h2 e.symm
        have e3 : ¬ "NTNCAD" = k := fun e => h3 e.symm
        have e4 : ¬ "NTNEUR" = k := fun e => h4 e.symm
        have e5 : ¬ "NTNGBP" = k := fun e => h5 e.symm
        have e6 : ¬ "NTNJPY" = k := fun e => h6 e.symm
        have e7 : ¬ "NTNSEK" = k := fun e => h7 e.symm
        simp [List.filter_cons, e1, e2, e3, e4, e5, e6, e7] at h
      · rintro (rfl | rfl | rfl | rfl | rfl | rfl | rfl) <;> decide

theorem ParseSimulatorConf_maps_three_field_items_witness :
    allDecimal decimalFromString (entriesOf (Split "A:0.01:0.01|bad| A:1.0:0.01 " '|')) = true ∧
    entriesOf (Split "A:0.01:0.01|bad| A:1.0:0.01 " '|')
      = [("A", "0.01", "0.01"), ("A", "1.0", "0.01")] ∧
    ∃ result,
      ParseSimulatorConf decimalFromString "A:0.01:0.01|bad| A:1.0:0.01 " 7 2 = .ok result ∧
      result "A" = some { ReferenceDataPoint := 1 * 7, DistributionRate := 1 / 100 * 2 } ∧
      result "bad" = none :=
  ⟨by decide, by decide,
    match ParseSimulatorConf_maps_three_field_items.1 decimalFromString
        "A:0.01:0.01|bad| A:1.0:0.01 " 7 2 (by decide) with
    | ⟨result, hres, hnone, hsome⟩ =>
        ⟨result, hres,
          hsome "A" "A" "1.0" "0.01" 1 (1 / 100) (by decide) decimalFromString_default.1
            decimalFromString_default.2,
          hnone "bad" (by decide)⟩⟩

/-- C22: an item that is empty after trimming or does not have exactly three
fields is skipped: the loop does the same with and without such items, so they
add no entry and cause no failure, and a configuration made of such items only
yields its result unchanged. Whenever `ParseSimulatorConf` returns, the keys of
the result are exactly the first fields of the three-field items; it returns
whenever the numbers of the three-field items are decimals; and the empty
string yields the empty map. -/
theorem ParseSimulatorConf_skips_malformed (parse : DecimalParser) (conf : String)
    (f1 f2 : Decimal) :
    (∀ it, threeFields it = none
      ↔ (TrimSpace it).length = 0 ∨ (Split (TrimSpace it) ':').length ≠ 3) ∧
    (∀ items m, parseItems parse f1 f2 items m
      = parseItems parse f1 f2 (items.filter fun it => (threeFields it).isSome) m) ∧
    (∀ items m, (∀ it ∈ items, threeFields it = none) →
      parseItems parse f1 f2 items m = .ok m) ∧
    (∀ result, ParseSimulatorConf parse conf f1 f2 = .ok result →
      ∀ k, (result k).isSome ↔ ∃ e ∈ entriesOf (Split conf '|'), e.1 = k) ∧
    (allDecimal parse (entriesOf (Split conf '|')) = true →
      ∃ result, ParseSimulatorConf parse conf f1 f2 = .ok result) ∧
    ParseSimulatorConf parse "" f1 f2 = .ok fun _ => none := by
  refine ⟨threeFields_eq_none_iff, parseItems_filter parse f1 f2, ?_, ?_, ?_, ?_⟩
  · intro items m hall
    rw [parseItems_filter]
    have hnil : (items.filter fun it => (threeFields it).isSome) = [] := by
      rw [List.filter_eq_nil_iff]
      intro it hit
      simp [hall it hit]
    rw [hnil]
    rfl
  · intro result hres k
    unfold ParseSimulatorConf at hres
    obtain ⟨-, hr⟩ := (parseItems_ok_iff parse f1 f2 _ _ _).mp hres
    rw [hr, foldl_entries_lookup]
    cases hlast : ((entriesOf (Split conf '|')).filter fun e => e.1 = k).getLast? with
    | none =>
        have hnil := List.getLast?_eq_none_iff.mp hlast
        simp only [Option.map_none', Option.orElse, Option.isSome_none, Bool.false_eq_true,
          false_iff, not_exists, not_and]
        intro e he hk
        have : e ∈ (entriesOf (Split conf '|')).filter fun e => e.1 = k := by
          simp [List.mem_filter, he, hk]
        rw [hnil] at this
        exact List.not_mem_nil _ this
    | some e =>
        have hmem : e ∈ (entriesOf (Split conf '|')).filter fun e => e.1 = k :=
          List.mem_of_getLast?_eq_some hlast
        simp only [List.mem_filter, decide_eq_true_eq] at hmem
        simp only [Option.map_some', Option.orElse, Option.isSome_some, true_iff]
        exact ⟨e, hmem.1, hmem.2⟩
  · intro hd
    unfold ParseSimulatorConf
    exact ⟨_, (parseItems_ok_iff parse f1 f2 _ _ _).mpr ⟨hd, rfl⟩⟩
  · rfl

/-- C23: `AddPrices` changes only the symbols it names. For a symbol that is
not the symbol of any observation of the slice, `GetPrice` returns after the
call what it returned before; and if every stored entry was keyed by its own
`Symbol` field before the call, so is every stored entry after it. -/
theorem AddPrices_frame (t : PriceProvider) (prices : List Price) (s : String)
    (hs : ∀ p ∈ prices, p.Symbol ≠ s) :
    (t.AddPrices prices).GetPrice s = t.GetPrice s ∧
    ((∀ k p, t.priceBySymbol k = some p → p.Symbol = k) →
      ∀ k p, (t.AddPrices prices).priceBySymbol k = some p → p.Symbol = k) := by
  constructor
  · have hnil : (prices.filter fun p => p.Symbol = s) = [] := by
      rw [List.filter_eq_nil_iff]
      intro p hp
      simpa using hs p hp
    simp only [PriceProvider.GetPrice, PriceBySymbol.index, AddPrices_lookup, hnil,
      List.getLast?_nil, Option.orElse]
  · intro hkeyed k p hp
    rw [AddPrices_lookup] at hp
    cases hlast : (prices.filter fun q => q.Symbol = k).getLast? with
    | none =>
        rw [hlast] at hp
        exact hkeyed k p hp
    | some q =>
        rw [hlast] at hp
        simp only [Option.orElse, Option.some.injEq] at hp
        subst hp
        have hmem := List.mem_of_getLast?_eq_some hlast
        simp only [List.mem_filter, decide_eq_true_eq] at hmem
        exact hmem.2

theorem AddPrices_frame_witness :
    (∀ p ∈ [({ Timestamp := 1700000000000, Price := 2, Symbol := "X" } : Price)],
      p.Symbol ≠ "Y") ∧
    ((heldByA.objs 0).AddPrices
        [{ Timestamp := 1700000000000, Price := 2, Symbol := "X" }]).GetPrice "Y"
      = (heldByA.objs 0).GetPrice "Y" ∧
    (heldByA.objs 0).GetPrice "Y" = { Timestamp := 1699999990000, Price := 1, Symbol := "Y" } ∧
    ((∀ k p, (heldByA.objs 0).priceBySymbol k = some p → p.Symbol = k) →
      ∀ k p, ((heldByA.objs 0).AddPrices
          [{ Timestamp := 1700000000000, Price := 2, Symbol := "X" }]).priceBySymbol k = some p →
        p.Symbol = k) :=
  ⟨by simp,
    (AddPrices_frame (heldByA.objs 0) [{ Timestamp := 1700000000000, Price := 2, Symbol := "X" }]
      "Y" (by simp)).1,
    rfl,
    (AddPrices_frame (heldByA.objs 0) [{ Timestamp := 1700000000000, Price := 2, Symbol := "X" }]
      "Y" (by simp)).2⟩

/-! ## The tick in the states the constructor builds -/

/-- The loop over the configured providers keeps every adapter named "Binance"
and, once there is an adapter, a provider registered under that name. -/
theorem foldl_addConfiguredProvider_registered (binance : Adapter)
    (hname : binance.Name = "Binance") (providers : List String) (os : OracleService)
    (hnames : ∀ ad ∈ os.adapters, ad.Name = "Binance")
    (hentry : os.adapters ≠ [] →
      (os.priceProviderPool.GetPriceProvider "Binance").isSome = true) :
    (∀ ad ∈ (providers.foldl (addConfiguredProvider binance) os).adapters,
        ad.Name = "Binance") ∧
    ((providers.foldl (addConfiguredProvider binance) os).adapters ≠ [] →
      ((providers.foldl (addConfiguredProvider binance)
          os).priceProviderPool.GetPriceProvider "Binance").isSome = true) := by
  induction providers generalizing os with
  | nil => exact ⟨hnames, hentry⟩
  | cons provider rest ih =>
      simp only [List.foldl_cons]
      apply ih
      · intro ad had
        unfold addConfiguredProvider at had
        split at had
        · simp only [List.mem_append, List.mem_singleton] at had
          rcases had with had | rfl
          · exact hnames ad had
          · exact hname
        · exact hnames ad had
      · intro hne
        unfold addConfiguredProvider at hne ⊢
        split
        · rename_i hp
          simp [PriceProviderPool.AddPriceProvider, PriceProviderPool.GetPriceProvider, hp]
        · rename_i hp
          simp only [hp, if_false] at hne
          exact hentry hne

/-- In the service made by the constructor every adapter has a registered
provider, when the Binance adapter goes by the name it is registered under. -/
theorem NewOracleService_allRegistered (config : OracleServiceConfig) (binance : Adapter)
    (hname : binance.Name = "Binance") :
    allRegistered (NewOracleService config binance).priceProviderPool
      (NewOracleService config binance).adapters = true := by
  have h := foldl_addConfiguredProvider_registered binance hname config.Providers
    { version := "v0.0.1"
      config := config
      symbols := config.Symbols
      prices := PriceBySymbol.empty
      aggregator := NewAveragePriceAggregator
      priceProviderPool := NewPriceProviderPool
      adapters := [] }
    (fun ad had => absurd had (List.not_mem_nil ad)) (fun hne => absurd rfl hne)
  simp only [allRegistered, List.all_eq_true]
  intro ad had
  have hne : (NewOracleService config binance).adapters ≠ [] := List.ne_nil_of_mem had
  have h1 : ad.Name = "Binance" := h.1 ad had
  rw [h1]
  exact h.2 hne

/-- C8 (amended): the tick completes normally in every state in which the name
of every active adapter has an entry in the provider registry and the
aggregator returns on two or more values, and it leaves such a state behind, so
that the next tick completes as well. The service made by `NewOracleService` is
such a state when the Binance adapter goes by the name "Binance", under which
its provider is registered. A nil result of `GetPriceProvider` is not
handled. -/
theorem UpdatePrices_returns_when_registered (os : OracleService) (now : Int)
    (hreg : allRegistered os.priceProviderPool os.adapters = true)
    (hagg : os.aggregator.Total) :
    (∃ os' log, os.UpdatePrices now = .ok (os', log) ∧
      allRegistered os'.priceProviderPool os'.adapters = true ∧ os'.aggregator.Total) ∧
    (∀ (config : OracleServiceConfig) (binance : Adapter), binance.Name = "Binance" →
      allRegistered (NewOracleService config binance).priceProviderPool
        (NewOracleService config binance).adapters = true ∧
      (NewOracleService config binance).aggregator.Total ∧
      ∃ os' log, (NewOracleService config binance).UpdatePrices now = .ok (os', log)) := by
  constructor
  · exact ⟨_, _, UpdatePrices_eq os now hreg hagg, (allRegistered_fetched os).trans hreg, hagg⟩
  · intro config binance hname
    have h1 := NewOracleService_allRegistered config binance hname
    have h2 : (NewOracleService config binance).aggregator.Total := by
      rw [NewOracleService_aggregator]
      exact NewAveragePriceAggregator_total
    exact ⟨h1, h2, _, _, UpdatePrices_eq _ now h1 h2⟩

theorem UpdatePrices_returns_when_registered_witness :
    allRegistered
      (NewOracleService { Symbols := ["NTNUSD"], Providers := ["Kraken", "Binance"] }
        { Name := "Binance", pool := 0,
          FetchPrices := fun _ => { written := [], err := false } }).priceProviderPool
      (NewOracleService { Symbols := ["NTNUSD"], Providers := ["Kraken", "Binance"] }
        { Name := "Binance", pool := 0,
          FetchPrices := fun _ => { written := [], err := false } }).adapters = true ∧
    ∃ os' log,
      (NewOracleService { Symbols := ["NTNUSD"], Providers := ["Kraken", "Binance"] }
        { Name := "Binance", pool := 0,
          FetchPrices := fun _ => { written := [], err := false } }).UpdatePrices 1700000000000
        = .ok (os', log) ∧
      allRegistered os'.priceProviderPool os'.adapters = true ∧ os'.aggregator.Total :=
  ⟨by decide,
    (UpdatePrices_returns_when_registered
      (NewOracleService { Symbols := ["NTNUSD"], Providers := ["Kraken", "Binance"] }
        { Name := "Binance", pool := 0,
          FetchPrices := fun _ => { written := [], err := false } })
      1700000000000 (by decide)
      ((NewOracleService_aggregator _ _).symm ▸ NewAveragePriceAggregator_total)).1⟩

end Oracle
